import Mathlib

/-!
Verification development for the exploration service module
(`core/domain/exp_services.py`).

The Python module is shallowly embedded below.  Python dictionaries whose key
sets are fixed by the module's own schemas are embedded as Lean structures;
fallible code returns `Except`; the datastore is an explicit `Store` value
threaded through the write operations; the external collaborators (widget
registry, object registry, value-generator registry, rule evaluation, the
domain validators and the HTML cleaner) are supplied through an `Env` record,
because their code lives outside this module.  The memcache layer is not
modelled: it is best-effort and never a source of truth, and no claim below
concerns it.
-/

/-! ### Generic helpers -/

/-- Runs the check `f` on each element in order and stops at the first
error, mirroring a Python `for` loop whose body can only `raise`. -/
def forEachE {α ε : Type} (f : α → Except ε Unit) : List α → Except ε Unit
  | [] => .ok ()
  | a :: as =>
    match f a with
    | .error e => .error e
    | .ok _ => forEachE f as

/-- Maps `f` over the list, stopping at the first error, mirroring a Python
loop that builds up a result list and can `raise`. -/
def mapME {α β ε : Type} (f : α → Except ε β) : List α → Except ε (List β)
  | [] => .ok []
  | a :: as =>
    match f a with
    | .error e => .error e
    | .ok b =>
      match mapME f as with
      | .error e => .error e
      | .ok bs => .ok (b :: bs)

/-- Membership test of a two-character run inside a character list; used to
embed the Python substring tests for a doubled brace. -/
def hasDoubledChar (c : Char) : List Char → Bool
  | [] => false
  | [_] => false
  | a :: b :: rest => (a == c && b == c) || hasDoubledChar c (b :: rest)

/-- Embeds Python's check that a string value contains a templated
parameter reference (an opening and a closing doubled brace). -/
def hasTemplateBraces (s : String) : Bool :=
  hasDoubledChar (Char.ofNat 123) s.toList && hasDoubledChar (Char.ofNat 125) s.toList

/-- Association-list insert with Python `dict` semantics: an existing key is
overwritten in place, a new key is appended. -/
def dictInsert (d : List (String × String)) (k v : String) : List (String × String) :=
  match d with
  | [] => [(k, v)]
  | (k', v') :: rest => if k' == k then (k, v) :: rest else (k', v') :: dictInsert rest k v

/-- Association-list lookup with Python `dict` semantics. -/
def dictGet? (d : List (String × String)) (k : String) : Option String :=
  (d.find? (fun p => p.1 == k)).map (fun p => p.2)

/-! ### Module-level constants

The values of the constants imported from `feconf` and `rule_domain` are not
part of this module's source; they are opaque distinct identifiers, modelled
here by distinct string literals. -/

/-- Modelled from the spec: the distinguished terminal destination marker
(`feconf.END_DEST`), "not a real state". -/
def END_DEST : String := "END"

/-- Modelled from the spec: the name identifying the default/catch-all rule
(`feconf.DEFAULT_RULE_NAME`). -/
def DEFAULT_RULE_NAME : String := "Default"

/-- Modelled from the spec: the rule-type tag of the default rule definition
(`rule_domain.DEFAULT_RULE_TYPE`). -/
def DEFAULT_RULE_TYPE : String := "default"

/-- Modelled from the spec: the rule-type tag of an atomic rule definition
(`rule_domain.ATOMIC_RULE_TYPE`). -/
def ATOMIC_RULE_TYPE : String := "atomic"

/-- Modelled from the spec: the composite rule-type tags
(`rule_domain.AND_RULE_TYPE`, `OR_RULE_TYPE`, `NOT_RULE_TYPE`). -/
def ALLOWED_COMPOSITE_RULE_TYPES : List String := ["and_rule", "or_rule", "not_rule"]

/-- Allowed content types (`ALLOWED_CONTENT_TYPES` in the source). -/
def ALLOWED_CONTENT_TYPES : List String := ["text"]

/-- The single handler name used by the current feature set. -/
def SUBMIT_HANDLER_NAME : String := "submit"

/-- The current exploration schema version. -/
def CURRENT_EXPLORATION_SCHEMA_VERSION : Int := 1

/-! ### Data model -/

/-- A Python value appearing as a rule input or customization argument. -/
inductive PyVal where
  | str (s : String)
  | int (n : Int)

/-- A content block: `{type, value}`. -/
structure Content where
  type : String
  value : String

/-- A rule definition: a boolean expression tree.  The duck-typed Python dict
is embedded as a closed sum; an atomic definition carries the rule name, the
subject and the named inputs, a composite carries its (unvalidated) rule-type
tag and its children. -/
inductive RuleDefinition where
  | default
  | atomic (name : String) (subject : String) (inputs : List (String × PyVal))
  | composite (rule_type : String) (children : List RuleDefinition)

/-- The `rule_type` entry of a rule definition dict. -/
def RuleDefinition.rule_type : RuleDefinition → String
  | .default => DEFAULT_RULE_TYPE
  | .atomic _ _ _ => ATOMIC_RULE_TYPE
  | .composite t _ => t

/-- A parameter-change directive: `{name, generator_id, customization_args}`. -/
structure ParamChange where
  name : String
  generator_id : String
  customization_args : List (String × PyVal)

/-- A rule spec: `{definition, dest, feedback, param_changes}`. -/
structure RuleSpec where
  definition : RuleDefinition
  dest : String
  feedback : List String
  param_changes : List ParamChange

/-- An answer handler: `{name, rule_specs}`. -/
structure AnswerHandler where
  name : String
  rule_specs : List RuleSpec

/-- A widget instance:
`{widget_id, customization_args, handlers, sticky}`. -/
structure WidgetInstance where
  widget_id : String
  customization_args : List (String × PyVal)
  handlers : List AnswerHandler
  sticky : Bool

/-- A state dict: `{content, name, param_changes, widget}`. -/
structure StateDict where
  content : List Content
  name : String
  param_changes : List ParamChange
  widget : WidgetInstance

/-- A state domain object: a state dict plus its opaque id. -/
structure State where
  id : String
  name : String
  content : List Content
  param_changes : List ParamChange
  widget : WidgetInstance

/-- Drops the id, keeping the versioned internals (`State.to_dict`). -/
def State.to_dict (s : State) : StateDict :=
  { content := s.content, name := s.name, param_changes := s.param_changes, widget := s.widget }

/-- Rebuilds a state domain object from its id and stored dict
(`State.from_dict`). -/
def State.from_dict (sid : String) (d : StateDict) : State :=
  { id := sid, name := d.name, content := d.content, param_changes := d.param_changes,
    widget := d.widget }

/-- An exploration record.  The same field set backs both the storage model
and the domain object wrapping it. -/
structure Exploration where
  id : String
  title : String
  category : String
  state_ids : List String
  param_specs : List (String × String)
  param_changes : List ParamChange
  is_public : Bool
  editor_ids : List String
  default_skin : String
  version : Nat
  deleted : Bool

/-- The versionable projection stored in a snapshot for public explorations
(`export_to_versionable_dict`). -/
structure VersionableDict where
  param_changes : List ParamChange
  param_specs : List (String × String)
  states : List StateDict

/-- A stored state record, keyed by (exploration id, state id). -/
structure StateModel where
  exploration_id : String
  id : String
  value : StateDict
  deleted : Bool

/-- A stored snapshot metadata record (`ExplorationSnapshotModel`). -/
structure SnapshotModel where
  exploration_id : String
  version_number : Nat
  committer_id : String
  commit_message : String
  created_on : String
  deleted : Bool

/-- A stored snapshot content record (`ExplorationSnapshotContentModel`);
`none` content is the null snapshot stored for non-public explorations
(`feconf.NULL_SNAPSHOT`). -/
structure SnapshotContentModel where
  exploration_id : String
  version_number : Nat
  content : Option VersionableDict
  deleted : Bool

/-- The datastore.  `next_id` drives generation of fresh opaque ids. -/
structure Store where
  explorations : List Exploration
  state_models : List StateModel
  snapshot_models : List SnapshotModel
  snapshot_content_models : List SnapshotContentModel
  next_id : Nat

/-! ### External collaborators -/

/-- A widget parameter declaration in the widget registry. -/
structure WidgetParam where
  name : String
  obj_type : String

/-- A handler declaration in the widget registry; `input_type` is `none` for
free-form/no-answer widgets. -/
structure HandlerSpec where
  name : String
  input_type : Option String

/-- A widget description from the widget registry. -/
structure WidgetSpec where
  params : List WidgetParam
  handlers : List HandlerSpec

/-- Opaque metadata for a rule fetched from the widget registry
(`generic_widget.get_rule_by_name`). -/
structure RuleMeta where
  name : String

/-- The pluggable registries and domain collaborators consumed by this
module; they live outside this module and are passed in abstractly. -/
structure Env where
  get_widget_by_id : String → Except String WidgetSpec
  get_object_class_by_type : String → Except String Unit
  get_generator_class_by_id : String → Except String Unit
  get_rule_by_name : String → String → Except String RuleMeta
  get_obj_type_for_param_name : RuleMeta → String → Except String String
  normalize : String → PyVal → Except String PyVal
  evaluate_rule : RuleDefinition → List (String × String) → String →
    List (String × PyVal) → PyVal → Bool
  clean : String → String
  validate_exploration : Exploration → Except String Unit
  validate_state : State → Except String Unit

/-! ### Repository GET methods

`get_exploration_by_id` and `get_state_by_id` fall back to the storage
models; the memcache fast path is not modelled. -/

/-- Finds the stored exploration record with the given id. -/
def findExplorationModel (store : Store) (exploration_id : String) : Option Exploration :=
  store.explorations.find? (fun e => e.id == exploration_id)

/-- Finds the stored state record with the given key. -/
def findStateModel (store : Store) (exploration_id state_id : String) : Option StateModel :=
  store.state_models.find? (fun sm => sm.exploration_id == exploration_id && sm.id == state_id)

/-- Returns a domain object representing an exploration (strict mode: a miss
raises a typed not-found error). -/
def get_exploration_by_id (store : Store) (exploration_id : String) : Except String Exploration :=
  match findExplorationModel store exploration_id with
  | some e => .ok e
  | none => .error ("Entity for class ExplorationModel with id " ++ exploration_id ++ " not found")

/-- Returns a domain object representing a state, given its id (strict
mode). -/
def get_state_by_id (store : Store) (exploration_id state_id : String) : Except String State :=
  match findStateModel store exploration_id state_id with
  | some sm => .ok (State.from_dict state_id sm.value)
  | none => .error ("Entity for class StateModel with id " ++ state_id ++ " not found")

/-- Modelled from the spec: `get_new_id` produces a fresh opaque id.  Fresh
ids are modelled as length-indexed strings so that distinctness of distinct
indices is provable. -/
def idString (n : Nat) : String :=
  String.mk (List.replicate (n + 1) (Char.ofNat 105))

/-- Draws one fresh id from the store's id supply. -/
def getNewId (store : Store) : Store × String :=
  ({ store with next_id := store.next_id + 1 }, idString store.next_id)

/-- Draws one fresh id per element of `names`. -/
def getNewIds (store : Store) (names : List String) : Store × List String :=
  match names with
  | [] => (store, [])
  | _ :: rest =>
    let (store', sid) := getNewId store
    let (store'', sids) := getNewIds store' rest
    (store'', sid :: sids)

/-! ### Exporting states (dest ids to human-readable names) -/

/-- Rewrites one rule's destination from a state id to the destination
state's display name, as done inside `export_state_internals_to_dict` when
`human_readable_dests` is set. -/
def humanizeRule (store : Store) (exploration_id : String) (r : RuleSpec) :
    Except String RuleSpec :=
  if r.dest == END_DEST then .ok r
  else
    match get_state_by_id store exploration_id r.dest with
    | .ok dest_state => .ok { r with dest := dest_state.name }
    | .error e => .error e

/-- Rewrites every rule destination of a handler. -/
def humanizeHandler (store : Store) (exploration_id : String) (h : AnswerHandler) :
    Except String AnswerHandler :=
  match mapME (humanizeRule store exploration_id) h.rule_specs with
  | .error e => .error e
  | .ok rs => .ok { h with rule_specs := rs }

/-- Gets a Python dict of the internals of the state
(`export_state_internals_to_dict`). -/
def export_state_internals_to_dict (store : Store) (exploration_id state_id : String)
    (human_readable_dests : Bool) : Except String StateDict :=
  match get_state_by_id store exploration_id state_id with
  | .error e => .error e
  | .ok state =>
    let state_dict := state.to_dict
    if human_readable_dests then
      match mapME (humanizeHandler store exploration_id) state_dict.widget.handlers with
      | .error e => .error e
      | .ok hs => .ok { state_dict with widget := { state_dict.widget with handlers := hs } }
    else .ok state_dict

/-- Returns the serialized version of an exploration used for versioning;
state dests are specified using names and not ids
(`export_to_versionable_dict` inside `save_exploration`). -/
def export_to_versionable_dict (store : Store) (exploration : Exploration) :
    Except String VersionableDict :=
  match mapME (fun sid => export_state_internals_to_dict store exploration.id sid true)
      exploration.state_ids with
  | .error e => .error e
  | .ok states =>
    .ok { param_changes := exploration.param_changes,
          param_specs := exploration.param_specs,
          states := states }

/-! ### Repository SAVE and DELETE methods -/

/-- Modelled from the spec: `ExplorationModel.put` commits the supplied
property values for the record, increments the stored version by exactly
one, and appends snapshot metadata and content records for the new version
(`commit_message` and timestamp handling is out of scope and left blank). -/
def explorationModelPut (store : Store) (committer_id : String) (old_version : Nat)
    (e : Exploration) (snapshot : Option VersionableDict) : Store :=
  let newE := { e with version := old_version + 1 }
  { store with
    explorations :=
      ((store.explorations.filter (fun x => x.id != e.id)) ++ [newE]),
    snapshot_models := store.snapshot_models ++
      [{ exploration_id := e.id, version_number := old_version + 1,
         committer_id := committer_id, commit_message := "", created_on := "",
         deleted := false }],
    snapshot_content_models := store.snapshot_content_models ++
      [{ exploration_id := e.id, version_number := old_version + 1,
         content := snapshot, deleted := false }] }

/-- The error message raised by the optimistic concurrency check. -/
def staleWriteMessage (stored_version attempted_version : Nat) : String :=
  "Trying to update version " ++ Nat.repr stored_version ++
    " of exploration from version " ++ Nat.repr attempted_version ++
    ", which is too old. Please reload the page and try again."

/-- Commits an exploration domain object to persistent storage
(`save_exploration`).  Validation runs first; the version check, snapshot
construction and put run inside one transaction, so an error leaves the
store untouched. -/
def save_exploration (env : Env) (committer_id : String) (exploration : Exploration) :
    Store → Store × Except String Unit := fun store =>
  match env.validate_exploration exploration with
  | .error e => (store, .error e)
  | .ok _ =>
    match findExplorationModel store exploration.id with
    | none =>
      (store, .error ("Entity for class ExplorationModel with id " ++ exploration.id ++
        " not found"))
    | some exploration_model =>
      if exploration.version ≠ exploration_model.version then
        (store, .error (staleWriteMessage exploration_model.version exploration.version))
      else
        match (if exploration.is_public then
                 (export_to_versionable_dict store exploration).map some
               else .ok none) with
        | .error e => (store, .error e)
        | .ok versionable_dict =>
          (explorationModelPut store committer_id exploration_model.version
            { exploration with deleted := exploration_model.deleted } versionable_dict,
           .ok ())

/-- Replaces the value of an existing state record, or creates the record if
it does not already exist (the body of `_save_states_transaction`). -/
def upsertStateModel (models : List StateModel) (exploration_id state_id : String)
    (value : StateDict) : List StateModel :=
  match models with
  | [] => [{ exploration_id := exploration_id, id := state_id, value := value,
             deleted := false }]
  | m :: ms =>
    if m.exploration_id == exploration_id && m.id == state_id then
      { m with value := value } :: ms
    else m :: upsertStateModel ms exploration_id state_id value

/-- Validates each state in order, stopping at the first failure (the
pre-transaction loop of `save_states`). -/
def validateStates (env : Env) : List State → Except String Unit
  | [] => .ok ()
  | s :: ss =>
    match env.validate_state s with
    | .error e => .error e
    | .ok _ => validateStates env ss

/-- Commits state domain objects to persistent storage (`save_states`). -/
def save_states (env : Env) (_committer_id : String) (exploration_id : String)
    (states : List State) : Store → Store × Except String Unit := fun store =>
  match validateStates env states with
  | .error e => (store, .error e)
  | .ok _ =>
    ({ store with
       state_models := (states.foldl
         (fun ms st => upsertStateModel ms exploration_id st.id st.to_dict)
         store.state_models) },
     .ok ())

/-- Modelled from the spec: the `exp_domain.State` constructor called with
`None` for the widget fills in a default widget instance with the single
`submit` handler holding one default rule. -/
def mkDefaultState (state_id state_name : String) : State :=
  { id := state_id, name := state_name,
    content := [{ type := "text", value := "" }],
    param_changes := [],
    widget :=
      { widget_id := "Continue", customization_args := [],
        handlers := [{ name := SUBMIT_HANDLER_NAME,
                       rule_specs := [{ definition := .default, dest := state_name,
                                        feedback := [], param_changes := [] }] }],
        sticky := false } }

/-- Creates and saves a new exploration and its initial state; returns the
new exploration's id (`create_new`). -/
def create_new (env : Env) (user_id title category : String)
    (exploration_id : Option String) (init_state_name : String) :
    Store → Store × Except String String := fun store =>
  let (store1, eid) :=
    match exploration_id with
    | some e => (store, e)
    | none => getNewId store
  let (store2, state_id) := getNewId store1
  let new_state := mkDefaultState state_id init_state_name
  match save_states env user_id eid [new_state] store2 with
  | (s, .error e) => (s, .error e)
  | (s, .ok _) =>
    let exploration_model : Exploration :=
      { id := eid, title := title, category := category, state_ids := [state_id],
        param_specs := [], param_changes := [], is_public := false,
        editor_ids := [user_id], default_skin := "conversation_v1", version := 0,
        deleted := false }
    (explorationModelPut s user_id 0 exploration_model none, .ok eid)

/-- Modelled from the spec: `exp_domain.Exploration.has_state_named` checks
whether any state record owned by the exploration carries the given display
name. -/
def has_state_named (store : Store) (exploration : Exploration) (state_name : String) : Bool :=
  exploration.state_ids.any (fun sid =>
    match findStateModel store exploration.id sid with
    | some sm => sm.value.name == state_name
    | none => false)

/-- The body of `_add_states_transaction`: saves the new state records, then
appends the new ids to the exploration's state-id list and re-saves it. -/
def addStatesTransaction (env : Env) (committer_id exploration_id : String)
    (state_ids : List String) (new_states : List State) (store : Store) :
    Store × Except String Unit :=
  match save_states env committer_id exploration_id new_states store with
  | (s, .error e) => (s, .error e)
  | (s, .ok _) =>
    match get_exploration_by_id s exploration_id with
    | .error e => (s, .error e)
    | .ok exploration2 =>
      save_exploration env committer_id
        { exploration2 with state_ids := exploration2.state_ids ++ state_ids } s

/-- Adds multiple states at a time and commits the changes, returning the
new state ids (`add_states`). -/
def add_states (env : Env) (committer_id exploration_id : String)
    (state_names : List String) : Store → Store × Except String (List String) := fun store =>
  match get_exploration_by_id store exploration_id with
  | .error e => (store, .error e)
  | .ok exploration =>
    match state_names.find? (fun n => has_state_named store exploration n) with
    | some n => (store, .error ("Duplicate state name " ++ n))
    | none =>
      let (store1, state_ids) := getNewIds store state_names
      let new_states := (state_names.zip state_ids).map (fun p => mkDefaultState p.2 p.1)
      -- _add_states_transaction: roll back all writes on error
      match addStatesTransaction env committer_id exploration_id state_ids new_states store1 with
      | (_, .error e) => (store1, .error e)
      | (s', .ok _) => (s', .ok state_ids)

/-- Marks a state model as deleted, or removes it entirely when
`force_deletion` is set (`delete_state_model`). -/
def delete_state_model (store : Store) (exploration_id state_id : String)
    (force_deletion : Bool) : Store × Except String Unit :=
  match findStateModel store exploration_id state_id with
  | none =>
    (store, .error ("Entity for class StateModel with id " ++ state_id ++ " not found"))
  | some _ =>
    if force_deletion then
      ({ store with state_models := (store.state_models.filter
          (fun sm => !(sm.exploration_id == exploration_id && sm.id == state_id))) },
       .ok ())
    else
      ({ store with state_models := (store.state_models.map
          (fun sm => if sm.exploration_id == exploration_id && sm.id == state_id then
             { sm with deleted := true } else sm)) },
       .ok ())

/-- Deletes each owned state in order, stopping at the first failure (the
state loop of `delete_exploration`). -/
def deleteStateModels (store : Store) (exploration_id : String) (state_ids : List String)
    (force_deletion : Bool) : Store × Except String Unit :=
  match state_ids with
  | [] => (store, .ok ())
  | sid :: rest =>
    match delete_state_model store exploration_id sid force_deletion with
    | (s, .error e) => (s, .error e)
    | (s, .ok _) => deleteStateModels s exploration_id rest force_deletion

/-- Deletes the exploration with the given id, together with its states and
snapshots; `force_deletion` removes the records physically
(`delete_exploration`). -/
def delete_exploration (_committer_id : String) (exploration_id : String)
    (force_deletion : Bool) : Store → Store × Except String Unit := fun store =>
  match get_exploration_by_id store exploration_id with
  | .error e => (store, .error e)
  | .ok exploration =>
    match deleteStateModels store exploration_id exploration.state_ids force_deletion with
    | (s, .error e) => (s, .error e)
    | (s, .ok _) =>
      match findExplorationModel s exploration_id with
      | none =>
        (s, .error ("Entity for class ExplorationModel with id " ++ exploration_id ++
          " not found"))
      | some _ =>
        let s1 :=
          if force_deletion then
            { s with explorations := s.explorations.filter (fun e => e.id != exploration_id) }
          else
            { s with explorations := (s.explorations.map
                (fun e => if e.id == exploration_id then { e with deleted := true } else e)) }
        let s2 :=
          if force_deletion then
            { s1 with snapshot_models := (s1.snapshot_models.filter
                (fun sn => sn.exploration_id != exploration_id)) }
          else
            { s1 with snapshot_models := (s1.snapshot_models.map
                (fun sn => if sn.exploration_id == exploration_id then
                   { sn with deleted := true } else sn)) }
        let s3 :=
          if force_deletion then
            { s2 with snapshot_content_models := (s2.snapshot_content_models.filter
                (fun sc => sc.exploration_id != exploration_id)) }
          else
            { s2 with snapshot_content_models := (s2.snapshot_content_models.map
                (fun sc => if sc.exploration_id == exploration_id then
                   { sc with deleted := true } else sc)) }
        (s3, .ok ())

/-! ### Operations on exploration snapshots -/

/-- A snapshot metadata dict, as returned by
`ExplorationSnapshotModel.get_metadata`. -/
structure SnapshotMetadataDict where
  committer_id : String
  commit_message : String
  created_on : String
  version_number : Int

/-- Modelled from the spec: `ExplorationSnapshotModel.get_metadata` returns
the committer id, commit message, creation timestamp and version number of
the snapshot with the given version. -/
def snapshotGetMetadata (store : Store) (exploration_id : String) (version_num : Int) :
    SnapshotMetadataDict :=
  match store.snapshot_models.find? (fun sn =>
      sn.exploration_id == exploration_id && (sn.version_number : Int) == version_num) with
  | some sn =>
    { committer_id := sn.committer_id, commit_message := sn.commit_message,
      created_on := sn.created_on, version_number := version_num }
  | none =>
    { committer_id := "", commit_message := "", created_on := "",
      version_number := version_num }

/-- Python's `range(start, stop, -1)`: the descending integers from `start`
down to `stop + 1`. -/
def rangeStepNeg1 (start stop : Int) : List Int :=
  (List.range (start - stop).toNat).map (fun (i : Nat) => start - (i : Int))

/-- Returns the most recent snapshots for this exploration, as dicts
(`get_exploration_snapshots_metadata`). -/
def get_exploration_snapshots_metadata (store : Store) (exploration_id : String)
    (limit : Int) : Except String (List SnapshotMetadataDict) :=
  match get_exploration_by_id store exploration_id with
  | .error e => .error e
  | .ok exploration =>
    let oldest_version := max ((exploration.version : Int) - limit) 0 + 1
    let current_version : Int := exploration.version
    let version_nums := rangeStepNeg1 current_version (oldest_version - 1)
    .ok (version_nums.map (snapshotGetMetadata store exploration_id))

/-! ### Classification -/

/-- Modelled from the spec: the widget registry's widget object exposes
`get_handler_by_name`, returning the registry handler spec (with its input
type) for the given handler name. -/
def widgetGetHandlerByName (w : WidgetSpec) (handler_name : String) :
    Except String HandlerSpec :=
  match w.handlers.find? (fun h => h.name == handler_name) with
  | some h => .ok h
  | none => .error ("Could not find handler with name " ++ handler_name)

/-- Returns the first rule that is satisfied by a reader's answer
(`classify`). -/
def classify (env : Env) (store : Store) (exploration_id state_id handler_name : String)
    (answer : PyVal) (params : List (String × PyVal)) : Except String RuleSpec :=
  match get_exploration_by_id store exploration_id with
  | .error e => .error e
  | .ok exploration =>
    match get_state_by_id store exploration_id state_id with
    | .error e => .error e
    | .ok state =>
      match env.get_widget_by_id state.widget.widget_id with
      | .error e => .error e
      | .ok generic_widget =>
        match widgetGetHandlerByName generic_widget handler_name with
        | .error e => .error e
        | .ok generic_handler =>
          match state.widget.handlers.find? (fun h => h.name == handler_name) with
          | none => .error "StopIteration"
          | some handler =>
            match generic_handler.input_type with
            | none =>
              match handler.rule_specs.head? with
              | some r => .ok r
              | none => .error "IndexError: list index out of range"
            | some input_type =>
              match handler.rule_specs.find? (fun rule_spec =>
                  env.evaluate_rule rule_spec.definition exploration.param_specs
                    input_type params answer) with
              | some rule_spec => .ok rule_spec
              | none => .error ("No matching rule found for handler " ++ handler.name ++ ".")

/-! ### Verification of state dicts (`verify_state_dict`)

The schema checks performed via `utils.verify_dict_keys_and_types` are
enforced here by the embedding's types (every dict is a structure with
exactly the schema's keys), so they cannot fail.  The remaining, semantic
checks are embedded one-for-one.  Errors are structured so that the
self-loop rejection is distinguishable from every other raise. -/

/-- A validation error raised by `verify_state_dict`: the feedback-less
self-loop rejection, or any other raise (carrying its message). -/
inductive VErr where
  | selfLoop (state_name : String)
  | msg (s : String)

/-- Checks that a state content list specification is valid
(`_verify_content`). -/
def verify_content (state_content_list : List Content) : Except String Unit :=
  if state_content_list.length ≠ 1 then
    .error "Each state content list should contain exactly one element."
  else
    forEachE (fun content_item =>
      if !(ALLOWED_CONTENT_TYPES.contains content_item.type) then
        .error ("Unsupported content type " ++ content_item.type ++ ".")
      else .ok ()) state_content_list

/-- Checks that a param_changes specification is valid
(`_verify_param_changes`). -/
def verify_param_changes (env : Env) (param_changes : List ParamChange)
    (exp_param_specs : List (String × String)) : Except String Unit :=
  forEachE (fun pc =>
    if !(exp_param_specs.any (fun p => p.1 == pc.name)) then
      .error ("Undeclared param name: " ++ pc.name)
    else
      match env.get_generator_class_by_id pc.generator_id with
      | .error e => .error e
      | .ok _ => .ok ()) param_changes

mutual
/-- Verifies a rule definition (`_verify_rule_definition`). -/
def verify_rule_definition (exp_param_specs : List (String × String)) :
    RuleDefinition → Except String Unit
  | .default => .ok ()
  | .atomic _ subject _ =>
    if !(exp_param_specs.any (fun p => p.1 == subject)) && subject != "answer" then
      .error ("Unrecognized rule subject: " ++ subject)
    else .ok ()
  | .composite rule_type children =>
    if !(ALLOWED_COMPOSITE_RULE_TYPES.contains rule_type) then
      .error ("Unsupported rule type " ++ rule_type ++ ".")
    else verify_rule_definitions exp_param_specs children

/-- Verifies each child rule definition in order. -/
def verify_rule_definitions (exp_param_specs : List (String × String)) :
    List RuleDefinition → Except String Unit
  | [] => .ok ()
  | c :: cs =>
    match verify_rule_definition exp_param_specs c with
    | .error e => .error e
    | .ok _ => verify_rule_definitions exp_param_specs cs
end

/-- The per-rule checks of the handler loop in `verify_state_dict`: rule
definition, destination validity, the feedback-less self-loop policy, and
the rule's own param changes. -/
def verify_rule_spec (env : Env) (exp_param_specs : List (String × String))
    (state_name_list : List String) (curr_state_name : String) (sticky : Bool)
    (rule : RuleSpec) : Except VErr Unit :=
  match verify_rule_definition exp_param_specs rule.definition with
  | .error e => .error (.msg e)
  | .ok _ =>
    if !((state_name_list ++ [END_DEST]).contains rule.dest) then
      .error (.msg ("Destination " ++ rule.dest ++ " is invalid."))
    else if rule.dest == curr_state_name && rule.feedback.isEmpty && !sticky then
      -- feedback-less self-loops are rejected unless the widget is sticky
      .error (.selfLoop curr_state_name)
    else
      match verify_param_changes env rule.param_changes exp_param_specs with
      | .error e => .error (.msg e)
      | .ok _ => .ok ()

/-- The per-handler checks of `verify_state_dict`. -/
def verify_handler (env : Env) (exp_param_specs : List (String × String))
    (state_name_list : List String) (curr_state_name : String) (sticky : Bool)
    (handler : AnswerHandler) : Except VErr Unit :=
  if handler.rule_specs.isEmpty then
    .error (.msg "There must be at least one rule.")
  else
    forEachE (verify_rule_spec env exp_param_specs state_name_list curr_state_name sticky)
      handler.rule_specs

/-- The widget customization-argument checks of `verify_state_dict`.  The
source was written for Python 2, where a list comprehension leaks its loop
variable: after building `widget_param_names` the variable `wp` holds the
last element of `widget.params` (and is unbound when that list is empty),
and the membership test reads `wp.name` rather than the argument name. -/
def verify_customization_args (env : Env) (widget_id : String)
    (customization_args : List (String × PyVal)) : Except String Unit :=
  forEachE (fun arg =>
    match env.get_widget_by_id widget_id with
    | .error e => .error (e ++ "; widget id: " ++ widget_id)
    | .ok widget =>
      let widget_param_names := widget.params.map (fun wp => wp.name)
      match widget.params.getLast? with
      | none => .error "NameError: name wp is not defined"
      | some wp =>
        if !(widget_param_names.contains wp.name) then
          .error ("Parameter " ++ arg.1 ++ " for widget " ++ widget_id ++
            " is invalid.")
        else
          match widget.params.find? (fun p => p.name == arg.1) with
          | some p =>
            match env.get_object_class_by_type p.obj_type with
            | .error e => .error e
            | .ok _ => .ok ()
          | none => .ok ()) customization_args

/-- Verifies a state dictionary that came from a YAML file
(`verify_state_dict`). -/
def verify_state_dict (env : Env) (state_dict : StateDict)
    (state_name_list : List String) (exp_param_specs : List (String × String)) :
    Except VErr Unit :=
  match verify_content state_dict.content with
  | .error e => .error (.msg e)
  | .ok _ =>
    match verify_param_changes env state_dict.param_changes exp_param_specs with
    | .error e => .error (.msg e)
    | .ok _ =>
      match forEachE (verify_handler env exp_param_specs state_name_list state_dict.name
          state_dict.widget.sticky) state_dict.widget.handlers with
      | .error e => .error e
      | .ok _ =>
        match verify_customization_args env state_dict.widget.widget_id
            state_dict.widget.customization_args with
        | .error e => .error (.msg e)
        | .ok _ => .ok ()

/-! ### Graph checks (`_verify_all_states_reachable`, `_verify_no_dead_ends`)

Both checks are breadth-first traversals written as `while` loops over a
frontier queue.  The loops are embedded with an explicit fuel argument that
models the unbounded `while`; fuel exhaustion corresponds to
non-termination of the source loop (which genuinely occurs for
`_verify_no_dead_ends` when a state carries the terminal sentinel as its
name).  The wrappers supply a fuel bound that is proved sufficient, under
the well-formedness hypotheses of the theorems below, by a decreasing
potential argument. -/

/-- All rule destinations of a state, in handler order then rule order. -/
def stateDests (st : StateDict) : List String :=
  (st.widget.handlers.map (fun h => h.rule_specs.map (fun r => r.dest))).flatten

/-- The first state carrying the given display name
(the `next(...)` lookup in `_verify_all_states_reachable`). -/
def findStateByName (states_list : List StateDict) (state_name : String) :
    Option StateDict :=
  states_list.find? (fun st => st.name == state_name)

/-- One frontier extension of the forward traversal: appends each
destination that is not already queued, not already processed, and not the
terminal sentinel. -/
def enqueueDests (processed q dests : List String) : List String :=
  dests.foldl (fun q dest_state =>
    if dest_state ∉ q ∧ dest_state ∉ processed ∧ dest_state ≠ END_DEST then
      q ++ [dest_state]
    else q) q

/-- Total number of rule specs over all states; bounds the number of
enqueue operations one processed state can perform. -/
def totalRuleCount (states_list : List StateDict) : Nat :=
  (states_list.map (fun st =>
    (st.widget.handlers.map (fun h => h.rule_specs.length)).sum)).sum

/-- Total number of handlers over all states; bounds the number of enqueue
operations one reverse-scan can perform. -/
def totalHandlerCount (states_list : List StateDict) : Nat :=
  (states_list.map (fun st => st.widget.handlers.length)).sum

/-- The forward `while` loop of `_verify_all_states_reachable`.  A popped
name with no matching state reproduces the uncaught `StopIteration` of the
source's `next(...)` call. -/
def reachLoop (states_list : List StateDict) :
    Nat → List String → List String → Except String (List String)
  | _, processed_queue, [] => .ok processed_queue
  | 0, _, _ :: _ => .error "fuel exhausted"
  | fuel + 1, processed_queue, curr_state :: rest =>
    if curr_state ∈ processed_queue then reachLoop states_list fuel processed_queue rest
    else
      match findStateByName states_list curr_state with
      | none => .error "StopIteration"
      | some st =>
        reachLoop states_list fuel (processed_queue ++ [curr_state])
          (enqueueDests (processed_queue ++ [curr_state]) rest (stateDests st))

/-- Fuel sufficient for the forward traversal under the theorems'
hypotheses. -/
def reachFuel (states_list : List StateDict) : Nat :=
  (states_list.map StateDict.name).length * (totalRuleCount states_list + 1) + 1

/-- Outcome of a graph check: success, the check's own violation carrying
the reported state names, or an escaped error (an exception other than the
check's violation, or a non-terminating traversal). -/
inductive GraphCheckOutcome where
  | ok
  | violation (state_names : List String)
  | fail (msg : String)

/-- Verifies that all states are reachable from the initial state
(`_verify_all_states_reachable`).  The reported list embeds the source's
`list(set(names) - set(processed))`, whose iteration order Python leaves
unspecified, as the dedup of the declared names filtered to those not
processed. -/
def verify_all_states_reachable (states_list : List StateDict) : GraphCheckOutcome :=
  match states_list with
  | [] => .fail "IndexError: list index out of range"
  | st0 :: _ =>
    match reachLoop states_list (reachFuel states_list) [] [st0.name] with
    | .error e => .fail e
    | .ok processed_queue =>
      if states_list.length ≠ processed_queue.length then
        .violation (((states_list.map StateDict.name).dedup).filter
          (fun n => !(processed_queue.contains n)))
      else .ok

/-- Whether some rule of the handler points at `curr` (the inner rule loop
with its `break` in `_verify_no_dead_ends`). -/
def anyRuleTo (h : AnswerHandler) (curr : String) : Bool :=
  h.rule_specs.any (fun r => r.dest == curr)

/-- Appends the state name once per handler containing a rule pointing at
`curr` (the handler loop of the reverse scan; the source's `break` leaves
the handler loop running, so a state with several matching handlers is
appended several times). -/
def appendIfPointsTo (state_name curr : String) (handlers : List AnswerHandler)
    (q : List String) : List String :=
  handlers.foldl (fun q h => if anyRuleTo h curr then q ++ [state_name] else q) q

/-- One reverse frontier extension: scans every state not already queued or
processed and enqueues those with a rule pointing at `curr`. -/
def scanAppend (states_list : List StateDict) (curr : String)
    (processed q : List String) : List String :=
  states_list.foldl (fun q st =>
    if st.name ∉ q ∧ st.name ∉ processed then
      appendIfPointsTo st.name curr st.widget.handlers q
    else q) q

/-- The reverse `while` loop of `_verify_no_dead_ends`, seeded at the
terminal sentinel, which itself is never recorded as processed. -/
def deadLoop (states_list : List StateDict) :
    Nat → List String → List String → Except String (List String)
  | _, processed_queue, [] => .ok processed_queue
  | 0, _, _ :: _ => .error "fuel exhausted"
  | fuel + 1, processed_queue, curr_state :: rest =>
    if curr_state ∈ processed_queue then deadLoop states_list fuel processed_queue rest
    else
      let processed' :=
        if curr_state ≠ END_DEST then processed_queue ++ [curr_state] else processed_queue
      deadLoop states_list fuel processed' (scanAppend states_list curr_state processed' rest)

/-- Fuel sufficient for the reverse traversal under the theorems'
hypotheses. -/
def deadFuel (states_list : List StateDict) : Nat :=
  ((states_list.map StateDict.name).length + 1) * (totalHandlerCount states_list + 1) + 1

/-- Verifies that the END state is reachable from all states
(`_verify_no_dead_ends`). -/
def verify_no_dead_ends (states_list : List StateDict) : GraphCheckOutcome :=
  match deadLoop states_list (deadFuel states_list) [] [END_DEST] with
  | .error e => .fail e
  | .ok processed_queue =>
    if states_list.length ≠ processed_queue.length then
      .violation (((states_list.map StateDict.name).dedup).filter
        (fun n => !(processed_queue.contains n)))
    else .ok

/-- Some rule of the state has destination `d`. -/
def RuleTo (st : StateDict) (d : String) : Prop :=
  ∃ h ∈ st.widget.handlers, ∃ r ∈ h.rule_specs, r.dest = d

/-- Forward reachability along rule destinations, starting from the name
`s0`, with the terminal sentinel excluded from traversal: the relation the
reachability check is claimed to compute. -/
inductive Reach (states_list : List StateDict) (s0 : String) : String → Prop
  | refl : Reach states_list s0 s0
  | step (b d : String) (st : StateDict) : Reach states_list s0 b → st ∈ states_list →
      st.name = b → RuleTo st d → d ≠ END_DEST → Reach states_list s0 d

/-- A state name from which the terminal sentinel is reachable by a forward
path of rule destinations: the relation the dead-end check is claimed to
compute. -/
inductive CanReachEnd (states_list : List StateDict) : String → Prop
  | toEnd (st : StateDict) : st ∈ states_list → RuleTo st END_DEST →
      CanReachEnd states_list st.name
  | toState (st : StateDict) (t : String) : st ∈ states_list → RuleTo st t →
      CanReachEnd states_list t → CanReachEnd states_list st.name

/-! ### Updating a state (`update_state`) -/

/-- A rule dict as supplied by the editor frontend to `update_state`; unlike
the stored rule spec it carries a `description` entry, which is how the
default rule is recognized. -/
structure UpdateRule where
  description : String
  definition : RuleDefinition
  dest : String
  feedback : List String
  param_changes : List ParamChange

/-- The default-rule position and type checks performed per rule inside
`update_state`: a default-described rule must be last and default-typed, a
non-default rule must not be last and not default-typed.  (For a
default-described rule of non-default type the source builds its message
with a malformed `%` chain, so a `TypeError` escapes instead of the
intended `ValueError`; an error is raised either way.) -/
def checkDefaultPosition (ruleset_length rule_ind : Nat) (rule : UpdateRule) :
    Except String Unit :=
  if rule.description == DEFAULT_RULE_NAME then
    if rule_ind ≠ ruleset_length - 1 then
      .error "Invalid ruleset: rules other than the last one should not be default rules."
    else if rule.definition.rule_type ≠ DEFAULT_RULE_TYPE then
      .error "TypeError: not enough arguments for format string"
    else .ok ()
  else
    if rule_ind == ruleset_length - 1 then
      .error "Invalid ruleset: the last rule should be a default rule"
    else if rule.definition.rule_type == DEFAULT_RULE_TYPE then
      .error ("For a non-default rule the rule_type should not be " ++ DEFAULT_RULE_TYPE)
    else .ok ()

/-- Normalizes and stores the rule inputs of a non-default rule: templated
string inputs pass through, all others go through the object type's
normalizer fetched from the rule metadata. -/
def normalizeRuleInputs (env : Env) (matched_rule : RuleMeta) :
    List (String × PyVal) → Except String (List (String × PyVal))
  | [] => .ok []
  | (param_name, value) :: rest =>
    match env.get_obj_type_for_param_name matched_rule param_name with
    | .error e => .error e
    | .ok param_type =>
      let normalized : Except String PyVal :=
        match value with
        | .str s =>
          if hasTemplateBraces s then .ok (PyVal.str s)
          else env.normalize param_type (PyVal.str s)
        | v => env.normalize param_type v
      match normalized with
      | .error e => .error e
      | .ok normalized_param =>
        match normalizeRuleInputs env matched_rule rest with
        | .error e => .error e
        | .ok prs => .ok ((param_name, normalized_param) :: prs)

/-- Processes one rule of the submitted ruleset: destination check, rule
construction with cleaned feedback, the default position checks, and (for
non-default rules) input normalization against the widget registry. -/
def processRule (env : Env) (state_ids : List String) (ruleset_length rule_ind : Nat)
    (rule : UpdateRule) : Except String RuleSpec :=
  if !((END_DEST :: state_ids).contains rule.dest) then
    .error ("The destination " ++ rule.dest ++ " is not a valid state id")
  else
    let state_rule : RuleSpec :=
      { definition := rule.definition, dest := rule.dest,
        feedback := rule.feedback.map env.clean, param_changes := rule.param_changes }
    match checkDefaultPosition ruleset_length rule_ind rule with
    | .error e => .error e
    | .ok _ =>
      if rule.description == DEFAULT_RULE_NAME then .ok state_rule
      else
        match state_rule.definition with
        | .atomic rule_name subject inputs =>
          match env.get_rule_by_name SUBMIT_HANDLER_NAME rule_name with
          | .error e => .error e
          | .ok matched_rule =>
            match normalizeRuleInputs env matched_rule inputs with
            | .error e => .error e
            | .ok new_inputs =>
              .ok { state_rule with definition := .atomic rule_name subject new_inputs }
        | _ =>
          -- the source reads definition['name'], absent from non-atomic shapes
          .error "KeyError: name"

/-- Processes the submitted ruleset in order, starting at index
`rule_ind`. -/
def processRuleset (env : Env) (state_ids : List String) (ruleset_length : Nat) :
    Nat → List UpdateRule → Except String (List RuleSpec)
  | _, [] => .ok []
  | rule_ind, rule :: rest =>
    match processRule env state_ids ruleset_length rule_ind rule with
    | .error e => .error e
    | .ok sr =>
      match processRuleset env state_ids ruleset_length (rule_ind + 1) rest with
      | .error e => .error e
      | .ok srs => .ok (sr :: srs)

/-- The `new_state_name` branch of `update_state`: a truthy name is checked
against the exploration's existing state names and applied. -/
def applyNewStateName (store : Store) (exploration : Exploration)
    (new_state_name : Option String) (state : State) : Except String State :=
  match new_state_name with
  | some n =>
    if n.isEmpty then .ok state
    else if state.name ≠ n ∧ has_state_named store exploration n then
      .error ("Duplicate state name: " ++ n)
    else .ok { state with name := n }
  | none => .ok state

/-- The `param_changes` branch of `update_state`: each truthy change list is
checked against the exploration's declared parameter specs and applied. -/
def applyParamChangesArg (exploration : Exploration)
    (param_changes : Option (List ParamChange)) (state : State) : Except String State :=
  match param_changes with
  | some pcs =>
    if pcs.isEmpty then .ok state
    else
      match pcs.find? (fun pc =>
          !(exploration.param_specs.any (fun p => p.1 == pc.name))) with
      | some pc =>
        .error ("No parameter named " ++ pc.name ++ " exists in this exploration")
      | none => .ok { state with param_changes := pcs }
  | none => .ok state

/-- The `widget_id`, `widget_customization_args` and `widget_sticky`
branches of `update_state` (none of them can raise on typed input). -/
def applyWidgetFields (widget_id : Option String)
    (widget_customization_args : Option (List (String × PyVal)))
    (widget_sticky : Option Bool) (state : State) : State :=
  let state3 :=
    match widget_id with
    | some w =>
      if w.isEmpty then state
      else { state with widget := { state.widget with widget_id := w } }
    | none => state
  let state4 :=
    match widget_customization_args with
    | some args => { state3 with widget := { state3.widget with customization_args := args } }
    | none => state3
  match widget_sticky with
  | some b => { state4 with widget := { state4.widget with sticky := b } }
  | none => state4

/-- The `widget_handlers` branch of `update_state`: a truthy handler dict
must contain the submit ruleset, which is processed rule by rule and
installed as the state's single handler. -/
def applyWidgetHandlers (env : Env) (exploration : Exploration)
    (widget_handlers : Option (List (String × List UpdateRule))) (state : State) :
    Except String State :=
  match widget_handlers with
  | some whs =>
    if whs.isEmpty then .ok state
    else
      match whs.find? (fun q => q.1 == SUBMIT_HANDLER_NAME) with
      | none => .error "KeyError: submit"
      | some p =>
        match env.get_widget_by_id state.widget.widget_id with
        | .error e => .error e
        | .ok _generic_widget =>
          match processRuleset env exploration.state_ids p.2.length 0 p.2 with
          | .error e => .error e
          | .ok rule_specs =>
            .ok { state with widget := { state.widget with
              handlers := [{ name := SUBMIT_HANDLER_NAME, rule_specs := rule_specs }] } }
  | none => .ok state

/-- The `content` branch of `update_state`: a truthy content list must have
exactly one entry, which is cleaned and applied. -/
def applyContentArg (env : Env) (content : Option (List Content)) (state : State) :
    Except String State :=
  match content with
  | some cs =>
    if cs.isEmpty then .ok state
    else if cs.length ≠ 1 then .error "Expected content to have length 1"
    else
      match cs.head? with
      | some c => .ok { state with content := [{ type := c.type, value := env.clean c.value }] }
      | none => .ok state
  | none => .ok state

/-- The read-and-check phase of `update_state`, before any write: applies
each supplied field to the fetched state, raising on the first invalid
input.  Python truthiness gates the string/list/dict arguments, `is not
None` gates the boolean and the customization arguments. -/
def update_state_prepare (env : Env) (store : Store) (exploration_id state_id : String)
    (new_state_name : Option String) (param_changes : Option (List ParamChange))
    (widget_id : Option String)
    (widget_customization_args : Option (List (String × PyVal)))
    (widget_handlers : Option (List (String × List UpdateRule)))
    (widget_sticky : Option Bool) (content : Option (List Content)) :
    Except String (Exploration × State) :=
  match get_exploration_by_id store exploration_id with
  | .error e => .error e
  | .ok exploration =>
  match get_state_by_id store exploration_id state_id with
  | .error e => .error e
  | .ok state0 =>
  match applyNewStateName store exploration new_state_name state0 with
  | .error e => .error e
  | .ok state1 =>
  match applyParamChangesArg exploration param_changes state1 with
  | .error e => .error e
  | .ok state2 =>
  match applyWidgetHandlers env exploration widget_handlers
      (applyWidgetFields widget_id widget_customization_args widget_sticky state2) with
  | .error e => .error e
  | .ok state6 =>
  match applyContentArg env content state6 with
  | .error e => .error e
  | .ok state7 => .ok (exploration, state7)

/-- Updates the given state and commits the changes (`update_state`).  All
checks precede the single transaction that writes the state and re-saves
the exploration, so an error commits nothing. -/
def update_state (env : Env) (committer_id exploration_id state_id : String)
    (new_state_name : Option String) (param_changes : Option (List ParamChange))
    (widget_id : Option String)
    (widget_customization_args : Option (List (String × PyVal)))
    (widget_handlers : Option (List (String × List UpdateRule)))
    (widget_sticky : Option Bool) (content : Option (List Content)) :
    Store → Store × Except String Unit := fun store =>
  match update_state_prepare env store exploration_id state_id new_state_name param_changes
      widget_id widget_customization_args widget_handlers widget_sticky content with
  | .error e => (store, .error e)
  | .ok (exploration, state) =>
    -- _update_state_transaction
    match ((match save_states env committer_id exploration_id [state] store with
            | (s, .error e) => (s, .error e)
            | (s, .ok _) => save_exploration env committer_id exploration s) :
             Store × Except String Unit) with
    | (_, .error e) => (store, .error e)
    | (s', .ok _) => (s', .ok ())

/-! ### Creation from YAML (`create_from_yaml`) -/

/-- The already-parsed exploration dict (the result of
`utils.dict_from_yaml`, whose parsing is outside this module). -/
structure ExplorationDict where
  default_skin : String
  param_changes : List ParamChange
  param_specs : List (String × String)
  schema_version : Int
  states : List StateDict

/-- Builds the domain state for one state dict of the YAML file: fetches
the blank state created for it, replaces content and param changes
(checking each against the declared param specs), and rebuilds the widget
with rule destinations translated from state names to state ids. -/
def buildOneState (env : Env) (store : Store) (exploration_id : String)
    (state_names_to_ids : List (String × String))
    (exploration_param_specs : List (String × String)) (sdict : StateDict) :
    Except String State :=
  match dictGet? state_names_to_ids sdict.name with
  | none => .error ("KeyError: " ++ sdict.name)
  | some sid =>
    match get_state_by_id store exploration_id sid with
    | .error e => .error e
    | .ok state =>
      let new_content := sdict.content.map
        (fun item => { type := item.type, value := env.clean item.value : Content })
      let new_param_changes := sdict.param_changes
      match new_param_changes.find? (fun pc =>
          !(exploration_param_specs.any (fun p => p.1 == pc.name))) with
      | some pc =>
        .error ("Parameter " ++ pc.name ++
          " was used in a state but not declared in the exploration param_specs.")
      | none =>
        match mapME (fun (handler : AnswerHandler) =>
            match mapME (fun (rule_spec : RuleSpec) =>
                (match (if rule_spec.dest == END_DEST then some END_DEST
                        else dictGet? state_names_to_ids rule_spec.dest) with
                 | none => .error ("KeyError: " ++ rule_spec.dest)
                 | some new_dest =>
                   .ok { definition := rule_spec.definition, dest := new_dest,
                         feedback := rule_spec.feedback.map env.clean,
                         param_changes := rule_spec.param_changes : RuleSpec })) handler.rule_specs with
            | .error e => .error e
            | .ok rs => .ok { name := handler.name, rule_specs := rs : AnswerHandler })
            sdict.widget.handlers with
        | .error e => .error e
        | .ok widget_handlers =>
          .ok { state with
            content := new_content,
            param_changes := new_param_changes,
            widget :=
              { widget_id := sdict.widget.widget_id,
                customization_args := sdict.widget.customization_args,
                handlers := widget_handlers,
                sticky := sdict.widget.sticky } }

/-- The body of the `try` block of `create_from_yaml`: declares param
specs, adds the non-initial states, rebuilds every state from its dict, and
saves the states and the updated exploration. -/
def createFromYamlRest (env : Env) (exploration_dict : ExplorationDict)
    (user_id exploration_id init_state_name : String)
    (state_names_to_ids0 : List (String × String)) :
    Store → Store × Except String Unit := fun store =>
  let exploration_param_specs := exploration_dict.param_specs
  let other_state_names :=
    (exploration_dict.states.filter (fun sdict => sdict.name != init_state_name)).map
      StateDict.name
  match add_states env user_id exploration_id other_state_names store with
  | (s, .error e) => (s, .error e)
  | (s, .ok other_state_ids) =>
    let state_names_to_ids :=
      (other_state_names.zip other_state_ids).foldl
        (fun d p => dictInsert d p.1 p.2) state_names_to_ids0
    match mapME (buildOneState env s exploration_id state_names_to_ids
        exploration_param_specs) exploration_dict.states with
    | .error e => (s, .error e)
    | .ok all_states =>
      match save_states env user_id exploration_id all_states s with
      | (s1, .error e) => (s1, .error e)
      | (s1, .ok _) =>
        match get_exploration_by_id s1 exploration_id with
        | .error e => (s1, .error e)
        | .ok exploration =>
          save_exploration env user_id
            { exploration with
              default_skin := exploration_dict.default_skin,
              param_changes := exploration_dict.param_changes,
              param_specs := exploration_param_specs } s1

/-- Creates an exploration from a (parsed) YAML dict (`create_from_yaml`).
Any exception raised after the initial creation triggers a force deletion
of the partially created exploration, after which the original exception is
re-raised. -/
def create_from_yaml (env : Env) (exploration_dict : ExplorationDict)
    (user_id title category : String) (exploration_id : Option String) :
    Store → Store × Except String String := fun store =>
  if exploration_dict.schema_version ≠ CURRENT_EXPLORATION_SCHEMA_VERSION then
    (store, .error "Sorry, we can only process v1 YAML files at present.")
  else
    match exploration_dict.states.head? with
    | none => (store, .error "IndexError: list index out of range")
    | some s0 =>
      let init_state_name := s0.name
      match create_new env user_id title category exploration_id init_state_name store with
      | (s, .error e) => (s, .error e)
      | (s, .ok eid) =>
        match get_exploration_by_id s eid with
        | .error e => (s, .error e)
        | .ok exploration =>
          match exploration.state_ids.head? with
          | none => (s, .error "IndexError: list index out of range")
          | some sid0 =>
            let state_names_to_ids0 := [(init_state_name, sid0)]
            match createFromYamlRest env exploration_dict user_id eid init_state_name
                state_names_to_ids0 s with
            | (s1, .ok _) => (s1, .ok eid)
            | (s1, .error e) =>
              match delete_exploration user_id eid true s1 with
              | (s2, .ok _) => (s2, .error e)
              | (s2, .error e2) => (s2, .error e2)

/-! ### Concrete fixtures

Small concrete stores, environments and states used by the witness and
counterexample theorems below. -/

/-- A widget registry entry with one declared parameter and the submit
handler taking normalized string answers. -/
def exWidgetSpec : WidgetSpec :=
  { params := [{ name := "placeholder", obj_type := "UnicodeString" }],
    handlers := [{ name := "submit", input_type := some "NormalizedString" }] }

/-- A concrete environment: one known widget, one known object type, one
known generator; rule evaluation satisfies exactly the default rule
definition; cleaning is the identity; the domain validators accept
everything. -/
def exEnv : Env :=
  { get_widget_by_id := fun wid =>
      if wid == "interaction1" then .ok exWidgetSpec
      else .error ("Widget " ++ wid ++ " not found"),
    get_object_class_by_type := fun t =>
      if t == "UnicodeString" then .ok () else .error ("unknown object type " ++ t),
    get_generator_class_by_id := fun g =>
      if g == "Copier" then .ok () else .error ("unknown generator " ++ g),
    get_rule_by_name := fun _ rn => .ok { name := rn },
    get_obj_type_for_param_name := fun _ _ => .ok "UnicodeString",
    normalize := fun _ v => .ok v,
    evaluate_rule := fun d _ _ _ _ =>
      match d with
      | .default => true
      | _ => false,
    clean := fun s => s,
    validate_exploration := fun _ => .ok (),
    validate_state := fun _ => .ok () }

/-- A non-default atomic rule spec pointing at the terminal sentinel. -/
def exRuleA : RuleSpec :=
  { definition := .atomic "Equals" "answer" [("x", .str "yes")], dest := "END",
    feedback := [], param_changes := [] }

/-- A default rule spec pointing at the terminal sentinel. -/
def exRuleD : RuleSpec :=
  { definition := .default, dest := "END", feedback := [], param_changes := [] }

/-- The rule list used by the classification witness. -/
def exC1Rules : List RuleSpec := [exRuleA, exRuleD]

/-- The state used by the classification witness. -/
def exC1State : StateDict :=
  { content := [{ type := "text", value := "hello" }], name := "First",
    param_changes := [],
    widget := { widget_id := "interaction1", customization_args := [],
                handlers := [{ name := "submit", rule_specs := exC1Rules }],
                sticky := false } }

/-- An exploration record owning the single state `s1i`. -/
def exC1Exploration : Exploration :=
  { id := "exp1", title := "T", category := "C", state_ids := ["s1i"],
    param_specs := [], param_changes := [], is_public := false,
    editor_ids := ["u"], default_skin := "conversation_v1", version := 1,
    deleted := false }

/-- The store used by the classification witness. -/
def exC1Store : Store :=
  { explorations := [exC1Exploration],
    state_models := [{ exploration_id := "exp1", id := "s1i", value := exC1State,
                       deleted := false }],
    snapshot_models := [{ exploration_id := "exp1", version_number := 1,
                          committer_id := "u", commit_message := "", created_on := "",
                          deleted := false }],
    snapshot_content_models := [{ exploration_id := "exp1", version_number := 1,
                                  content := none, deleted := false }],
    next_id := 0 }

/-- An exploration object one version ahead of the stored record, used to
witness the stale-write rejection. -/
def exC4Exploration : Exploration := { exC1Exploration with version := 2 }

/-- First state of the snapshot-projection witness: a default rule points at
the second state by id. -/
def exC6State1 : StateDict :=
  { content := [{ type := "text", value := "one" }], name := "First",
    param_changes := [],
    widget := { widget_id := "interaction1", customization_args := [],
                handlers := [{ name := "submit",
                               rule_specs := [{ definition := .default, dest := "s2i",
                                                feedback := [], param_changes := [] }] }],
                sticky := false } }

/-- Second state of the snapshot-projection witness: a default rule points
at the terminal sentinel. -/
def exC6State2 : StateDict :=
  { content := [{ type := "text", value := "two" }], name := "Second",
    param_changes := [],
    widget := { widget_id := "interaction1", customization_args := [],
                handlers := [{ name := "submit",
                               rule_specs := [{ definition := .default, dest := "END",
                                                feedback := [], param_changes := [] }] }],
                sticky := false } }

/-- A public exploration owning the two witness states. -/
def exC6Exploration : Exploration :=
  { id := "exp6", title := "T6", category := "C", state_ids := ["s1i", "s2i"],
    param_specs := [], param_changes := [], is_public := true,
    editor_ids := ["u"], default_skin := "conversation_v1", version := 1,
    deleted := false }

/-- The store backing the snapshot-projection witness. -/
def exC6Store : Store :=
  { explorations := [exC6Exploration],
    state_models :=
      [{ exploration_id := "exp6", id := "s1i", value := exC6State1, deleted := false },
       { exploration_id := "exp6", id := "s2i", value := exC6State2, deleted := false }],
    snapshot_models := [], snapshot_content_models := [], next_id := 0 }

/-- The projection expected in the snapshot written by the witness commit:
the first state's destination is recorded by the second state's display
name. -/
def exC6Snap : Option VersionableDict :=
  some { param_changes := [], param_specs := [],
         states := [{ exC6State1 with widget := { exC6State1.widget with
                        handlers := [{ name := "submit",
                                       rule_specs := [{ definition := .default,
                                                        dest := "Second", feedback := [],
                                                        param_changes := [] }] }] } },
                    exC6State2] }

/-- A state dict with a feedback-less self-loop on a non-sticky widget,
used to witness the self-loop rejection. -/
def exC5Dict : StateDict :=
  { content := [{ type := "text", value := "x" }], name := "Looper",
    param_changes := [],
    widget := { widget_id := "interaction1", customization_args := [],
                handlers := [{ name := "submit",
                               rule_specs :=
                                 [{ definition := .atomic "Equals" "answer" [],
                                    dest := "Looper", feedback := [], param_changes := [] },
                                  { definition := .default, dest := "END",
                                    feedback := ["bye"], param_changes := [] }] }],
                sticky := false } }

/-- A state dict whose widget carries a customization argument name that the
widget registry does not declare; used to exhibit the broken
customization-argument check. -/
def exC8Dict : StateDict :=
  { content := [{ type := "text", value := "x" }], name := "First",
    param_changes := [],
    widget := { widget_id := "interaction1",
                customization_args := [("bogus", .str "v")],
                handlers := [{ name := "submit",
                               rule_specs := [{ definition := .default, dest := "END",
                                                feedback := [], param_changes := [] }] }],
                sticky := false } }

/-- A ruleset whose default rule comes first instead of last, used to
witness the default-rule position rejection. -/
def exC7BadRuleset : List UpdateRule :=
  [{ description := "Default", definition := .default, dest := "END",
     feedback := [], param_changes := [] },
   { description := "Equals", definition := .atomic "Equals" "answer" [],
     dest := "END", feedback := [], param_changes := [] }]

/-- The widget-handlers payload carrying the bad ruleset. -/
def exC7Whs : List (String × List UpdateRule) := [("submit", exC7BadRuleset)]

/-- A single state whose only rule points at an undeclared name; feeding it
to the reachability check makes the source's `next(...)` lookup raise
`StopIteration`. -/
def exC2Bad : StateDict :=
  { content := [{ type := "text", value := "a" }], name := "A",
    param_changes := [],
    widget := { widget_id := "interaction1", customization_args := [],
                handlers := [{ name := "submit",
                               rule_specs := [{ definition := .default, dest := "B",
                                                feedback := [], param_changes := [] }] }],
                sticky := false } }

/-- A single state whose only rule points at the terminal sentinel. -/
def exC2Good : StateDict :=
  { content := [{ type := "text", value := "a" }], name := "A",
    param_changes := [],
    widget := { widget_id := "interaction1", customization_args := [],
                handlers := [{ name := "submit",
                               rule_specs := [{ definition := .default, dest := "END",
                                                feedback := [], param_changes := [] }] }],
                sticky := false } }

/-! ### Relations describing the humanized (name-keyed) projection -/

/-- The output rule equals the input rule except that a non-terminal
destination id has been replaced by the destination state's display name. -/
def HumanizedRule (store : Store) (exploration_id : String) (orig out : RuleSpec) : Prop :=
  out.definition = orig.definition ∧ out.feedback = orig.feedback ∧
  out.param_changes = orig.param_changes ∧
  ((orig.dest = END_DEST ∧ out.dest = END_DEST) ∨
   (orig.dest ≠ END_DEST ∧ ∃ dst, get_state_by_id store exploration_id orig.dest = .ok dst ∧
      out.dest = dst.name))

/-- Pointwise humanization of a handler's rule list. -/
def HumanizedHandler (store : Store) (exploration_id : String)
    (orig out : AnswerHandler) : Prop :=
  out.name = orig.name ∧ out.rule_specs.length = orig.rule_specs.length ∧
  ∀ i (hi : i < orig.rule_specs.length) (hi' : i < out.rule_specs.length),
    HumanizedRule store exploration_id (orig.rule_specs.get ⟨i, hi⟩)
      (out.rule_specs.get ⟨i, hi'⟩)

/-- The output state dict equals the input state dict except that every
rule destination has been humanized. -/
def HumanizedStateDict (store : Store) (exploration_id : String)
    (orig out : StateDict) : Prop :=
  out.name = orig.name ∧ out.content = orig.content ∧
  out.param_changes = orig.param_changes ∧
  out.widget.widget_id = orig.widget.widget_id ∧
  out.widget.customization_args = orig.widget.customization_args ∧
  out.widget.sticky = orig.widget.sticky ∧
  out.widget.handlers.length = orig.widget.handlers.length ∧
  ∀ i (hi : i < orig.widget.handlers.length) (hi' : i < out.widget.handlers.length),
    HumanizedHandler store exploration_id (orig.widget.handlers.get ⟨i, hi⟩)
      (out.widget.handlers.get ⟨i, hi'⟩)

/-! ### Rollback invariants (`create_from_yaml`) -/

/-- The block of ids drawn by `k` successive calls to the id supply,
starting at counter `n`. -/
def idsFrom : Nat → Nat → List String
  | _, 0 => []
  | n, k + 1 => idString n :: idsFrom (n + 1) k

/-- The store holds no record at all for the given exploration id: no
exploration record, no state record, no snapshot records. -/
def CleanFor (s : Store) (exploration_id : String) : Prop :=
  (findExplorationModel s exploration_id).isNone = true ∧
  (∀ sm ∈ s.state_models, sm.exploration_id ≠ exploration_id) ∧
  (∀ sn ∈ s.snapshot_models, sn.exploration_id ≠ exploration_id) ∧
  (∀ sc ∈ s.snapshot_content_models, sc.exploration_id ≠ exploration_id)

/-- The partially created exploration is force-deletable: its record
exists, its state-id list is duplicate-free and drawn from the id supply
already consumed, every listed state record exists, and every state record
owned by the exploration id is listed (no orphans). -/
def RollbackInv (s : Store) (exploration_id : String) : Prop :=
  ∃ ex, findExplorationModel s exploration_id = some ex ∧
    ex.state_ids.Nodup ∧
    (∀ sid ∈ ex.state_ids, ∃ k, k < s.next_id ∧ sid = idString k) ∧
    (∀ sid ∈ ex.state_ids, (findStateModel s exploration_id sid).isSome = true) ∧
    (∀ sm ∈ s.state_models, sm.exploration_id = exploration_id →
      sm.id ∈ ex.state_ids)

/-- The single state of the rollback witness: one rule destination names no
state, so rebuilding the states fails with a key error after the
exploration has been created. -/
def exC9State : StateDict :=
  { content := [{ type := "text", value := "x" }], name := "First",
    param_changes := [],
    widget := { widget_id := "interaction1", customization_args := [],
                handlers := [{ name := "submit",
                               rule_specs := [{ definition := .default,
                                                dest := "Missing", feedback := [],
                                                param_changes := [] }] }],
                sticky := false } }

/-- The exploration dict of the rollback witness. -/
def exC9Dict : ExplorationDict :=
  { default_skin := "conversation_v1", param_changes := [], param_specs := [],
    schema_version := 1, states := [exC9State] }

/-- The empty store of the rollback witness. -/
def exC9Store : Store :=
  { explorations := [], state_models := [], snapshot_models := [],
    snapshot_content_models := [], next_id := 0 }

/-- The exploration record as it stands right after the witness creation
commit. -/
def exC9Exploration : Exploration :=
  { id := idString 0, title := "T", category := "C", state_ids := [idString 1],
    param_specs := [], param_changes := [], is_public := false,
    editor_ids := ["u"], default_skin := "conversation_v1", version := 1,
    deleted := false }

/-! ### Generic lemmas -/

theorem forEachE_ok_iff {α ε : Type} (f : α → Except ε Unit) (l : List α) :
    forEachE f l = .ok () ↔ ∀ a ∈ l, f a = .ok () := by
  induction l with
  | nil => simp [forEachE]
  | cons a as ih =>
    simp only [forEachE]
    constructor
    · intro h
      cases hfa : f a with
      | error e => rw [hfa] at h; exact absurd h (by simp)
      | ok u =>
        rw [hfa] at h
        intro x hx
        rcases List.mem_cons.1 hx with rfl | hx'
        · cases u; exact hfa
        · exact ih.1 h x hx'
    · intro h
      have hfa : f a = .ok () := h a (List.mem_cons_self a as)
      rw [hfa]
      exact ih.2 (fun x hx => h x (List.mem_cons_of_mem a hx))

theorem find?_eq_some_of_first {α : Type} (p : α → Bool) :
    ∀ (l : List α) (i : Nat) (hi : i < l.length),
      (∀ j (hj : j < i), p (l.get ⟨j, hj.trans hi⟩) = false) →
      p (l.get ⟨i, hi⟩) = true → l.find? p = some (l.get ⟨i, hi⟩) := by
  intro l
  induction l with
  | nil => intro i hi; simp at hi
  | cons a as ih =>
    intro i hi hprev hcur
    cases i with
    | zero =>
      simp only [List.get] at hcur
      simp [List.find?, hcur]
    | succ n =>
      have ha : p a = false := by
        have := hprev 0 (Nat.succ_pos n)
        simpa using this
      simp only [List.find?, ha]
      have hn : n < as.length := by simpa [List.length_cons] using hi
      have := ih n hn (fun j hj => by
        have := hprev (j + 1) (by omega)
        simpa using this) (by simpa using hcur)
      simpa using this

theorem mapME_ok_length {α β ε : Type} (f : α → Except ε β) :
    ∀ (l : List α) (bs : List β), mapME f l = .ok bs → bs.length = l.length := by
  intro l
  induction l with
  | nil => intro bs h; simp only [mapME] at h; cases h; rfl
  | cons a as ih =>
    intro bs h
    simp only [mapME] at h
    cases hfa : f a with
    | error e => rw [hfa] at h; exact absurd h (by simp)
    | ok b =>
      rw [hfa] at h
      cases hrest : mapME f as with
      | error e => rw [hrest] at h; exact absurd h (by simp)
      | ok bs' =>
        rw [hrest] at h
        cases h
        simp [ih bs' hrest]

theorem mapME_ok_get {α β ε : Type} (f : α → Except ε β) :
    ∀ (l : List α) (bs : List β), mapME f l = .ok bs →
      ∀ i (hi : i < l.length) (hi' : i < bs.length),
        f (l.get ⟨i, hi⟩) = .ok (bs.get ⟨i, hi'⟩) := by
  intro l
  induction l with
  | nil => intro bs h i hi; simp at hi
  | cons a as ih =>
    intro bs h i hi hi'
    simp only [mapME] at h
    cases hfa : f a with
    | error e => rw [hfa] at h; exact absurd h (by simp)
    | ok b =>
      rw [hfa] at h
      cases hrest : mapME f as with
      | error e => rw [hrest] at h; exact absurd h (by simp)
      | ok bs' =>
        rw [hrest] at h
        cases h
        cases i with
        | zero => simpa using hfa
        | succ n =>
          have hn : n < as.length := by simpa [List.length_cons] using hi
          have hn' : n < bs'.length := by simpa [List.length_cons] using hi'
          simpa using ih bs' hrest n hn hn'

/-! ### C10: snapshot metadata pagination -/

theorem rangeStepNeg1_length (start stop : Int) :
    (rangeStepNeg1 start stop).length = (start - stop).toNat := by
  simp only [rangeStepNeg1, List.length_map, List.length_range]

theorem rangeStepNeg1_get (start stop : Int) (i : Nat)
    (hi : i < (rangeStepNeg1 start stop).length) :
    (rangeStepNeg1 start stop).get ⟨i, hi⟩ = start - i := by
  simp only [rangeStepNeg1, List.get_eq_getElem, List.getElem_map, List.getElem_range]

theorem snapshotGetMetadata_version (store : Store) (exploration_id : String) (n : Int) :
    (snapshotGetMetadata store exploration_id n).version_number = n := by
  unfold snapshotGetMetadata
  split <;> rfl

/-- C10: for every exploration with stored version at least one and every
non-negative limit, `get_exploration_snapshots_metadata` returns exactly
`min limit version` snapshot-metadata dicts, whose version numbers are
consecutive integers in descending order starting at the stored version. -/
theorem c10_snapshots_metadata (store : Store) (exploration_id : String)
    (exploration : Exploration) (limit : Int)
    (hget : get_exploration_by_id store exploration_id = .ok exploration)
    (hv : 1 ≤ exploration.version) (hl : 0 ≤ limit) :
    ∃ mds, get_exploration_snapshots_metadata store exploration_id limit = .ok mds ∧
      (mds.length : Int) = min limit (exploration.version : Int) ∧
      ∀ i (hi : i < mds.length),
        (mds.get ⟨i, hi⟩).version_number = (exploration.version : Int) - i := by
  unfold get_exploration_snapshots_metadata
  rw [hget]
  refine ⟨_, rfl, ?_, ?_⟩
  · simp only [List.length_map, rangeStepNeg1_length]
    omega
  · intro i hi
    simp only [List.get_eq_getElem, List.getElem_map, snapshotGetMetadata_version]
    have hi' : i < (rangeStepNeg1 (exploration.version : Int)
        ((max ((exploration.version : Int) - limit) 0 + 1) - 1)).length := by
      simpa using hi
    simpa using congrArg (fun x => x)
      (rangeStepNeg1_get (exploration.version : Int)
        ((max ((exploration.version : Int) - limit) 0 + 1) - 1) i hi')

theorem c10_snapshots_metadata_witness :
    ∃ mds, get_exploration_snapshots_metadata exC1Store "exp1" 1 = .ok mds ∧
      (mds.length : Int) = min 1 (exC1Exploration.version : Int) ∧
      ∀ i (hi : i < mds.length),
        (mds.get ⟨i, hi⟩).version_number = (exC1Exploration.version : Int) - i :=
  c10_snapshots_metadata exC1Store "exp1" exC1Exploration 1 rfl (by decide) (by decide)

/-! ### C1: classification picks the first matching rule -/

/-- C1: for every state handler passed to `classify`: if the widget
declares no input type, `classify` returns the first rule spec of the
handler; otherwise it returns the first rule spec, in stored list order,
whose definition evaluates true against the answer and current params, and
raises a no-matching-rule error when no rule spec evaluates true. -/
theorem c1_classify (env : Env) (store : Store)
    (exploration_id state_id handler_name : String) (answer : PyVal)
    (params : List (String × PyVal)) (exploration : Exploration) (state : State)
    (generic_widget : WidgetSpec) (generic_handler : HandlerSpec)
    (handler : AnswerHandler)
    (hexp : get_exploration_by_id store exploration_id = .ok exploration)
    (hstate : get_state_by_id store exploration_id state_id = .ok state)
    (hwidget : env.get_widget_by_id state.widget.widget_id = .ok generic_widget)
    (hgh : widgetGetHandlerByName generic_widget handler_name = .ok generic_handler)
    (hfind : state.widget.handlers.find? (fun h => h.name == handler_name) = some handler) :
    (generic_handler.input_type = none →
      ∀ r rest, handler.rule_specs = r :: rest →
        classify env store exploration_id state_id handler_name answer params = .ok r) ∧
    (∀ input_type, generic_handler.input_type = some input_type →
      (∀ i (hi : i < handler.rule_specs.length),
        (∀ j (hj : j < i),
          env.evaluate_rule (handler.rule_specs.get ⟨j, hj.trans hi⟩).definition
            exploration.param_specs input_type params answer = false) →
        env.evaluate_rule (handler.rule_specs.get ⟨i, hi⟩).definition
          exploration.param_specs input_type params answer = true →
        classify env store exploration_id state_id handler_name answer params =
          .ok (handler.rule_specs.get ⟨i, hi⟩)) ∧
      ((∀ r ∈ handler.rule_specs,
          env.evaluate_rule r.definition exploration.param_specs input_type params answer
            = false) →
        classify env store exploration_id state_id handler_name answer params =
          .error ("No matching rule found for handler " ++ handler.name ++ "."))) := by
  constructor
  · intro hnone r rest hrs
    simp only [classify, hexp, hstate, hwidget, hgh, hfind, hnone, hrs, List.head?]
  · intro input_type hit
    constructor
    · intro i hi hprev hcur
      have hfound := find?_eq_some_of_first
        (fun rule_spec => env.evaluate_rule rule_spec.definition exploration.param_specs
          input_type params answer) handler.rule_specs i hi hprev hcur
      simp only [classify, hexp, hstate, hwidget, hgh, hfind, hit, hfound]
    · intro hall
      have hnonefound : handler.rule_specs.find?
          (fun rule_spec => env.evaluate_rule rule_spec.definition exploration.param_specs
            input_type params answer) = none :=
        List.find?_eq_none.2 (fun x hx => by simp [hall x hx])
      simp only [classify, hexp, hstate, hwidget, hgh, hfind, hit, hnonefound]

theorem c1_classify_witness :
    classify exEnv exC1Store "exp1" "s1i" "submit" (PyVal.str "hi") [] = .ok exRuleD := by
  have h := c1_classify exEnv exC1Store "exp1" "s1i" "submit" (PyVal.str "hi") []
    exC1Exploration (State.from_dict "s1i" exC1State) exWidgetSpec
    { name := "submit", input_type := some "NormalizedString" }
    { name := "submit", rule_specs := exC1Rules }
    rfl rfl rfl rfl rfl
  exact (h.2 "NormalizedString" rfl).1 1 (by decide)
    (fun j hj =>
      match j, hj with
      | 0, _ => rfl
      | n + 1, hj => absurd hj (by omega)) rfl

/-! ### C4 and C6: the versioned commit -/

theorem humanizeRule_ok (store : Store) (exploration_id : String) (r out : RuleSpec)
    (h : humanizeRule store exploration_id r = .ok out) :
    HumanizedRule store exploration_id r out := by
  unfold humanizeRule at h
  split at h
  · rename_i hdest
    cases h
    exact ⟨rfl, rfl, rfl, Or.inl ⟨by simpa using hdest, by simpa using hdest⟩⟩
  · rename_i hdest
    cases hget : get_state_by_id store exploration_id r.dest with
    | ok dst =>
      rw [hget] at h
      cases h
      exact ⟨rfl, rfl, rfl, Or.inr ⟨by simpa using hdest, dst, hget, rfl⟩⟩
    | error e =>
      rw [hget] at h
      exact absurd h (by simp)

theorem humanizeHandler_ok (store : Store) (exploration_id : String)
    (h : AnswerHandler) (out : AnswerHandler)
    (hh : humanizeHandler store exploration_id h = .ok out) :
    HumanizedHandler store exploration_id h out := by
  unfold humanizeHandler at hh
  cases hm : mapME (humanizeRule store exploration_id) h.rule_specs with
  | error e => rw [hm] at hh; exact absurd hh (by simp)
  | ok rs =>
    rw [hm] at hh
    cases hh
    refine ⟨rfl, mapME_ok_length _ _ _ hm, ?_⟩
    intro i hi hi'
    exact humanizeRule_ok store exploration_id _ _
      (mapME_ok_get _ _ _ hm i hi (by simpa using hi'))

theorem export_state_internals_ok (store : Store) (exploration_id state_id : String)
    (out : StateDict)
    (h : export_state_internals_to_dict store exploration_id state_id true = .ok out) :
    ∃ st, get_state_by_id store exploration_id state_id = .ok st ∧
      HumanizedStateDict store exploration_id st.to_dict out := by
  unfold export_state_internals_to_dict at h
  cases hget : get_state_by_id store exploration_id state_id with
  | error e => rw [hget] at h; exact absurd h (by simp)
  | ok st =>
    rw [hget] at h
    simp only [if_true] at h
    cases hm : mapME (humanizeHandler store exploration_id) st.to_dict.widget.handlers with
    | error e => rw [hm] at h; exact absurd h (by simp)
    | ok hs =>
      rw [hm] at h
      cases h
      refine ⟨st, rfl, rfl, rfl, rfl, rfl, rfl, rfl, mapME_ok_length _ _ _ hm, ?_⟩
      intro i hi hi'
      exact humanizeHandler_ok store exploration_id _ _
        (mapME_ok_get _ _ _ hm i hi (by simpa using hi'))

/-- C4: `save_exploration` raises a stale-write error and writes nothing
whenever the committed exploration object's version differs from the
currently stored model's version; when the versions are equal the commit
proceeds to the versioned put. -/
theorem c4_stale_write (env : Env) (committer_id : String) (exploration : Exploration)
    (store : Store) (model : Exploration)
    (hval : env.validate_exploration exploration = .ok ())
    (hm : findExplorationModel store exploration.id = some model) :
    (exploration.version ≠ model.version →
      save_exploration env committer_id exploration store =
        (store, .error (staleWriteMessage model.version exploration.version))) ∧
    (exploration.version = model.version →
      ∀ snap, (if exploration.is_public then
                 (export_to_versionable_dict store exploration).map some
               else .ok none) = .ok snap →
        save_exploration env committer_id exploration store =
          (explorationModelPut store committer_id model.version
            { exploration with deleted := model.deleted } snap, .ok ())) := by
  constructor
  · intro hne
    simp only [save_exploration, hval, hm, if_pos hne]
  · intro heq snap hsnap
    simp only [save_exploration, hval, hm]
    rw [if_neg (by omega), hsnap]

theorem c4_stale_write_witness :
    save_exploration exEnv "u" exC4Exploration exC1Store =
      (exC1Store, .error (staleWriteMessage exC1Exploration.version exC4Exploration.version)) :=
  (c4_stale_write exEnv "u" exC4Exploration exC1Store exC1Exploration rfl rfl).1 (by decide)

/-- C6: on every successful `save_exploration` commit, the snapshot written
for the new version carries the null projection when the exploration is not
public, and the full versionable projection (param changes, param specs,
and every state's internals with destinations recorded by state display
name) when it is public. -/
theorem c6_snapshot_projection (env : Env) (committer_id : String)
    (exploration : Exploration) (store : Store) (model : Exploration)
    (snap : Option VersionableDict)
    (hval : env.validate_exploration exploration = .ok ())
    (hm : findExplorationModel store exploration.id = some model)
    (hver : exploration.version = model.version)
    (hsnap : (if exploration.is_public then
                (export_to_versionable_dict store exploration).map some
              else .ok none) = .ok snap) :
    ∃ s', save_exploration env committer_id exploration store = (s', .ok ()) ∧
      ({ exploration_id := exploration.id, version_number := model.version + 1,
         content := snap, deleted := false } : SnapshotContentModel)
        ∈ s'.snapshot_content_models ∧
      (exploration.is_public = false → snap = none) ∧
      (exploration.is_public = true → ∃ vd, snap = some vd ∧
        export_to_versionable_dict store exploration = .ok vd ∧
        vd.param_changes = exploration.param_changes ∧
        vd.param_specs = exploration.param_specs ∧
        vd.states.length = exploration.state_ids.length ∧
        ∀ i (hi : i < exploration.state_ids.length) (hi' : i < vd.states.length),
          ∃ st, get_state_by_id store exploration.id
              (exploration.state_ids.get ⟨i, hi⟩) = .ok st ∧
            HumanizedStateDict store exploration.id st.to_dict
              (vd.states.get ⟨i, hi'⟩)) := by
  have hrun := (c4_stale_write env committer_id exploration store model hval hm).2 hver snap hsnap
  refine ⟨_, hrun, ?_, ?_, ?_⟩
  · simp [explorationModelPut]
  · intro hpub
    rw [hpub] at hsnap
    simp only [Bool.false_eq_true, if_false] at hsnap
    injection hsnap with h2
    exact h2.symm
  · intro hpub
    rw [hpub] at hsnap
    simp only [if_pos rfl] at hsnap
    cases hexp : export_to_versionable_dict store exploration with
    | error e => rw [hexp] at hsnap; exact absurd hsnap (by simp [Except.map])
    | ok vd =>
      rw [hexp] at hsnap
      simp only [Except.map] at hsnap
      cases hsnap
      refine ⟨vd, rfl, rfl, ?_, ?_, ?_, ?_⟩
      · unfold export_to_versionable_dict at hexp
        cases hms : mapME (fun sid =>
            export_state_internals_to_dict store exploration.id sid true)
            exploration.state_ids with
        | error e => rw [hms] at hexp; exact absurd hexp (by simp)
        | ok sts => rw [hms] at hexp; cases hexp; rfl
      · unfold export_to_versionable_dict at hexp
        cases hms : mapME (fun sid =>
            export_state_internals_to_dict store exploration.id sid true)
            exploration.state_ids with
        | error e => rw [hms] at hexp; exact absurd hexp (by simp)
        | ok sts => rw [hms] at hexp; cases hexp; rfl
      · unfold export_to_versionable_dict at hexp
        cases hms : mapME (fun sid =>
            export_state_internals_to_dict store exploration.id sid true)
            exploration.state_ids with
        | error e => rw [hms] at hexp; exact absurd hexp (by simp)
        | ok sts => rw [hms] at hexp; cases hexp; exact mapME_ok_length _ _ _ hms
      · intro i hi hi'
        unfold export_to_versionable_dict at hexp
        cases hms : mapME (fun sid =>
            export_state_internals_to_dict store exploration.id sid true)
            exploration.state_ids with
        | error e => rw [hms] at hexp; exact absurd hexp (by simp)
        | ok sts =>
          rw [hms] at hexp
          cases hexp
          exact export_state_internals_ok store exploration.id _ _
            (mapME_ok_get _ _ _ hms i hi (by simpa using hi'))

theorem c6_snapshot_projection_witness :
    ∃ s', save_exploration exEnv "u" exC6Exploration exC6Store = (s', .ok ()) ∧
      ({ exploration_id := exC6Exploration.id,
         version_number := exC6Exploration.version + 1,
         content := exC6Snap, deleted := false } : SnapshotContentModel)
        ∈ s'.snapshot_content_models ∧
      (exC6Exploration.is_public = false → exC6Snap = none) ∧
      (exC6Exploration.is_public = true → ∃ vd, exC6Snap = some vd ∧
        export_to_versionable_dict exC6Store exC6Exploration = .ok vd ∧
        vd.param_changes = exC6Exploration.param_changes ∧
        vd.param_specs = exC6Exploration.param_specs ∧
        vd.states.length = exC6Exploration.state_ids.length ∧
        ∀ i (hi : i < exC6Exploration.state_ids.length) (hi' : i < vd.states.length),
          ∃ st, get_state_by_id exC6Store exC6Exploration.id
              (exC6Exploration.state_ids.get ⟨i, hi⟩) = .ok st ∧
            HumanizedStateDict exC6Store exC6Exploration.id st.to_dict
              (vd.states.get ⟨i, hi'⟩)) :=
  c6_snapshot_projection exEnv "u" exC6Exploration exC6Store exC6Exploration exC6Snap
    rfl rfl rfl rfl

/-! ### C5 and C8: state-dict validation -/

theorem forEachE_error_mem {α ε : Type} (f : α → Except ε Unit) :
    ∀ (l : List α) (e : ε), forEachE f l = .error e → ∃ a ∈ l, f a = .error e := by
  intro l
  induction l with
  | nil => intro e h; simp [forEachE] at h
  | cons a as ih =>
    intro e h
    simp only [forEachE] at h
    cases hfa : f a with
    | error e' =>
      rw [hfa] at h
      cases h
      exact ⟨a, List.mem_cons_self a as, hfa⟩
    | ok u =>
      rw [hfa] at h
      obtain ⟨b, hb, hfb⟩ := ih e h
      exact ⟨b, List.mem_cons_of_mem a hb, hfb⟩

theorem verify_ok_rule_specs_ok (env : Env) (state_dict : StateDict)
    (state_name_list : List String) (exp_param_specs : List (String × String))
    (h : verify_state_dict env state_dict state_name_list exp_param_specs = .ok ()) :
    ∀ handler ∈ state_dict.widget.handlers, ∀ rule ∈ handler.rule_specs,
      verify_rule_spec env exp_param_specs state_name_list state_dict.name
        state_dict.widget.sticky rule = .ok () := by
  unfold verify_state_dict at h
  split at h
  · exact absurd h (by simp)
  · split at h
    · exact absurd h (by simp)
    · split at h
      · exact absurd h (by simp)
      · rename_i u3 heq
        cases u3
        intro handler hh rule hr
        have hH := (forEachE_ok_iff _ _).1 heq handler hh
        unfold verify_handler at hH
        split at hH
        · exact absurd hH (by simp)
        · exact (forEachE_ok_iff _ _).1 hH rule hr

theorem verify_rule_spec_self_loop_ne_ok (env : Env)
    (exp_param_specs : List (String × String)) (state_name_list : List String)
    (curr_state_name : String) (rule : RuleSpec)
    (hdest : rule.dest = curr_state_name) (hfb : rule.feedback = []) :
    verify_rule_spec env exp_param_specs state_name_list curr_state_name false rule
      ≠ .ok () := by
  unfold verify_rule_spec
  split
  · simp
  · split
    · simp
    · rw [if_pos (by simp [hdest, hfb])]
      simp

theorem verify_rule_spec_sticky_not_selfLoop (env : Env)
    (exp_param_specs : List (String × String)) (state_name_list : List String)
    (curr_state_name : String) (rule : RuleSpec) (n : String) :
    verify_rule_spec env exp_param_specs state_name_list curr_state_name true rule
      ≠ .error (.selfLoop n) := by
  unfold verify_rule_spec
  split
  · simp
  · split
    · simp
    · rw [if_neg (by simp)]
      split <;> simp

/-- C5: a state dict containing a rule whose destination equals the state's
own name with an empty feedback list is rejected by `verify_state_dict`
when the widget is not sticky, and the self-loop rejection can never fire
when the widget is sticky. -/
theorem c5_self_loop_policy (env : Env) (state_dict : StateDict)
    (state_name_list : List String) (exp_param_specs : List (String × String))
    (hrule : ∃ handler ∈ state_dict.widget.handlers, ∃ rule ∈ handler.rule_specs,
      rule.dest = state_dict.name ∧ rule.feedback = []) :
    (state_dict.widget.sticky = false →
      ∃ e, verify_state_dict env state_dict state_name_list exp_param_specs = .error e) ∧
    (state_dict.widget.sticky = true →
      ∀ n, verify_state_dict env state_dict state_name_list exp_param_specs ≠
        .error (.selfLoop n)) := by
  constructor
  · intro hsticky
    cases hres : verify_state_dict env state_dict state_name_list exp_param_specs with
    | error e => exact ⟨e, rfl⟩
    | ok u =>
      cases u
      obtain ⟨handler, hh, rule, hr, hdest, hfb⟩ := hrule
      have hok := verify_ok_rule_specs_ok env state_dict state_name_list exp_param_specs
        hres handler hh rule hr
      rw [hsticky] at hok
      exact absurd hok (verify_rule_spec_self_loop_ne_ok env exp_param_specs
        state_name_list state_dict.name rule hdest hfb)
  · intro hsticky n hcontra
    unfold verify_state_dict at hcontra
    split at hcontra
    · simp at hcontra
    · split at hcontra
      · simp at hcontra
      · split at hcontra
        · rename_i e heq
          injection hcontra with he
          subst he
          obtain ⟨handler, _, hH⟩ := forEachE_error_mem _ _ _ heq
          unfold verify_handler at hH
          split at hH
          · simp at hH
          · obtain ⟨rule, _, hr⟩ := forEachE_error_mem _ _ _ hH
            rw [hsticky] at hr
            exact absurd hr (verify_rule_spec_sticky_not_selfLoop env exp_param_specs
              state_name_list state_dict.name rule n)
        · split at hcontra
          · simp at hcontra
          · simp at hcontra

theorem c5_self_loop_policy_witness :
    ∃ e, verify_state_dict exEnv exC5Dict ["Looper"] [] = .error e :=
  (c5_self_loop_policy exEnv exC5Dict ["Looper"] []
    ⟨{ name := "submit",
       rule_specs :=
         [{ definition := .atomic "Equals" "answer" [],
            dest := "Looper", feedback := [], param_changes := [] },
          { definition := .default, dest := "END",
            feedback := ["bye"], param_changes := [] }] },
      by simp [exC5Dict],
      { definition := .atomic "Equals" "answer" [],
        dest := "Looper", feedback := [], param_changes := [] },
      by simp, rfl, rfl⟩).1 rfl

/-- C8: the source never rejects an undeclared widget customization-argument
name.  The membership test at the end of `verify_state_dict` reads the
Python 2 comprehension-leaked variable `wp` (the last declared widget
parameter) instead of the argument name under scrutiny, so it always
passes whenever the widget declares at least one parameter: this concrete
state dict carries the undeclared argument name `bogus` for a widget whose
only declared parameter is `placeholder`, yet validation succeeds. -/
theorem c8_undeclared_customization_arg_accepted :
    verify_state_dict exEnv exC8Dict ["First"] [] = .ok () ∧
    (¬ ∃ wp ∈ exWidgetSpec.params, wp.name = "bogus") ∧
    exC8Dict.widget.customization_args.map (fun a => a.1) = ["bogus"] := by
  refine ⟨rfl, by decide, rfl⟩

/-! ### C7: default-rule position checks in `update_state` -/

theorem processRule_ok_check (env : Env) (state_ids : List String)
    (ruleset_length rule_ind : Nat) (rule : UpdateRule) (sr : RuleSpec)
    (h : processRule env state_ids ruleset_length rule_ind rule = .ok sr) :
    checkDefaultPosition ruleset_length rule_ind rule = .ok () := by
  unfold processRule at h
  split at h
  · exact absurd h (by simp)
  · split at h
    · exact absurd h (by simp)
    · rename_i u heq
      cases u
      exact heq

theorem processRuleset_ok_checks (env : Env) (state_ids : List String)
    (ruleset_length : Nat) :
    ∀ (rs : List UpdateRule) (start : Nat) (out : List RuleSpec),
      processRuleset env state_ids ruleset_length start rs = .ok out →
      ∀ i (hi : i < rs.length),
        checkDefaultPosition ruleset_length (start + i) (rs.get ⟨i, hi⟩) = .ok () := by
  intro rs
  induction rs with
  | nil => intro start out h i hi; simp at hi
  | cons r rest ih =>
    intro start out h i hi
    simp only [processRuleset] at h
    cases hr : processRule env state_ids ruleset_length start r with
    | error e => rw [hr] at h; exact absurd h (by simp)
    | ok sr =>
      rw [hr] at h
      cases hrest : processRuleset env state_ids ruleset_length (start + 1) rest with
      | error e => rw [hrest] at h; exact absurd h (by simp)
      | ok srs =>
        cases i with
        | zero =>
          simpa using processRule_ok_check env state_ids ruleset_length start r sr hr
        | succ n =>
          have hn : n < rest.length := by simpa [List.length_cons] using hi
          have := ih (start + 1) srs hrest n hn
          rw [show start + (n + 1) = start + 1 + n by omega]
          simpa using this

theorem checkDefaultPosition_bad_ne_ok (ruleset_length i : Nat) (rule : UpdateRule)
    (hbad : (rule.description = DEFAULT_RULE_NAME ∧ i ≠ ruleset_length - 1) ∨
      (rule.description ≠ DEFAULT_RULE_NAME ∧ i = ruleset_length - 1)) :
    checkDefaultPosition ruleset_length i rule ≠ .ok () := by
  unfold checkDefaultPosition
  rcases hbad with ⟨hd, hne⟩ | ⟨hd, heq⟩
  · rw [if_pos (by simp [hd]), if_pos hne]
    simp
  · rw [if_neg (by simp [hd]), if_pos (by simpa using heq)]
    simp

theorem applyWidgetHandlers_ok_ruleset (env : Env) (exploration : Exploration)
    (state : State) (whs : List (String × List UpdateRule))
    (p : String × List UpdateRule) (state6 : State)
    (hne : whs ≠ [])
    (hfind : whs.find? (fun q => q.1 == SUBMIT_HANDLER_NAME) = some p)
    (h : applyWidgetHandlers env exploration (some whs) state = .ok state6) :
    ∃ out, processRuleset env exploration.state_ids p.2.length 0 p.2 = .ok out := by
  simp only [applyWidgetHandlers] at h
  rw [if_neg (by simp [List.isEmpty_iff, hne]), hfind] at h
  cases hw : env.get_widget_by_id state.widget.widget_id with
  | error e => rw [hw] at h; exact absurd h (by simp)
  | ok gw =>
    rw [hw] at h
    have h2 : (match processRuleset env exploration.state_ids p.2.length 0 p.2 with
               | .error e => (.error e : Except String State)
               | .ok rule_specs =>
                 .ok { state with widget := { state.widget with
                   handlers := [{ name := SUBMIT_HANDLER_NAME,
                                  rule_specs := rule_specs }] } }) = .ok state6 := h
    cases hout : processRuleset env exploration.state_ids p.2.length 0 p.2 with
    | error e =>
      rw [hout] at h2
      exact absurd h2 (by simp)
    | ok out => exact ⟨out, rfl⟩

/-- C7: `update_state` raises an error, committing no state or exploration
write, whenever a rule other than the last one in the submit ruleset is a
default rule or the last rule is not a default rule; a ruleset whose unique
default rule (of default rule type) is last passes the default-position
check at every index. -/
theorem c7_default_rule_position (env : Env)
    (committer_id exploration_id state_id : String) (store : Store)
    (new_state_name : Option String) (param_changes : Option (List ParamChange))
    (widget_id : Option String)
    (widget_customization_args : Option (List (String × PyVal)))
    (widget_sticky : Option Bool) (content : Option (List Content))
    (whs : List (String × List UpdateRule)) (p : String × List UpdateRule)
    (hne : whs ≠ [])
    (hfind : whs.find? (fun q => q.1 == SUBMIT_HANDLER_NAME) = some p) :
    ((∃ i, ∃ hi : i < p.2.length,
        ((p.2.get ⟨i, hi⟩).description = DEFAULT_RULE_NAME ∧ i ≠ p.2.length - 1) ∨
        ((p.2.get ⟨i, hi⟩).description ≠ DEFAULT_RULE_NAME ∧ i = p.2.length - 1)) →
      ∃ e, update_state env committer_id exploration_id state_id new_state_name
        param_changes widget_id widget_customization_args (some whs) widget_sticky
        content store = (store, .error e)) ∧
    (∀ rs : List UpdateRule,
      (∀ i (hi : i < rs.length),
        ((rs.get ⟨i, hi⟩).description = DEFAULT_RULE_NAME ↔ i = rs.length - 1) ∧
        ((rs.get ⟨i, hi⟩).definition.rule_type = DEFAULT_RULE_TYPE ↔ i = rs.length - 1)) →
      ∀ i (hi : i < rs.length),
        checkDefaultPosition rs.length i (rs.get ⟨i, hi⟩) = .ok ()) := by
  constructor
  · intro ⟨i, hi, hbad⟩
    cases hprep : update_state_prepare env store exploration_id state_id new_state_name
        param_changes widget_id widget_customization_args (some whs) widget_sticky
        content with
    | error e => exact ⟨e, by simp [update_state, hprep]⟩
    | ok pr =>
      exfalso
      unfold update_state_prepare at hprep
      split at hprep
      · exact absurd hprep (by simp)
      · split at hprep
        · exact absurd hprep (by simp)
        · split at hprep
          · exact absurd hprep (by simp)
          · split at hprep
            · exact absurd hprep (by simp)
            · split at hprep
              · exact absurd hprep (by simp)
              · rename_i state6 heq
                obtain ⟨out, hout⟩ := applyWidgetHandlers_ok_ruleset _ _ _ _ _ _
                  hne hfind heq
                have := processRuleset_ok_checks _ _ _ p.2 0 out hout i hi
                rw [Nat.zero_add] at this
                exact absurd this (checkDefaultPosition_bad_ne_ok _ _ _ hbad)
  · intro rs hgood i hi
    obtain ⟨hdesc, htype⟩ := hgood i hi
    unfold checkDefaultPosition
    by_cases hlast : i = rs.length - 1
    · rw [if_pos (by simp only [beq_iff_eq]; exact hdesc.2 hlast),
        if_neg (not_not_intro hlast), if_neg (not_not_intro (htype.2 hlast))]
    · rw [if_neg (by simp only [beq_iff_eq]; exact fun h => hlast (hdesc.1 h)),
        if_neg (by simp only [beq_iff_eq]; exact hlast),
        if_neg (by simp only [beq_iff_eq]; exact fun h => hlast (htype.1 h))]

theorem c7_default_rule_position_witness :
    ∃ e, update_state exEnv "u" "exp1" "s1i" none none none none (some exC7Whs)
      none none exC1Store = (exC1Store, .error e) :=
  (c7_default_rule_position exEnv "u" "exp1" "s1i" exC1Store none none none none
    none none exC7Whs ("submit", exC7BadRuleset) (by simp [exC7Whs]) rfl).1
    ⟨0, by decide, Or.inl ⟨rfl, by decide⟩⟩

/-! ### C2: reachability check -/

theorem enqueueDests_nil (p q : List String) : enqueueDests p q [] = q := rfl

theorem enqueueDests_cons (p q : List String) (d : String) (ds : List String) :
    enqueueDests p q (d :: ds) =
      enqueueDests p (if d ∉ q ∧ d ∉ p ∧ d ≠ END_DEST then q ++ [d] else q) ds := rfl

theorem enqueueDests_mono (p : List String) :
    ∀ (ds q : List String), ∀ x ∈ q, x ∈ enqueueDests p q ds := by
  intro ds
  induction ds with
  | nil => intro q x hx; simpa [enqueueDests_nil] using hx
  | cons d ds ih =>
    intro q x hx
    rw [enqueueDests_cons]
    split
    · exact ih _ x (by simp [hx])
    · exact ih _ x hx

theorem enqueueDests_length (p : List String) :
    ∀ (ds q : List String), (enqueueDests p q ds).length ≤ q.length + ds.length := by
  intro ds
  induction ds with
  | nil => intro q; simp [enqueueDests_nil]
  | cons d ds ih =>
    intro q
    rw [enqueueDests_cons]
    split
    · have := ih (q ++ [d])
      simp only [List.length_append, List.length_cons, List.length_nil] at *
      omega
    · have := ih q
      simp only [List.length_cons] at *
      omega

theorem enqueueDests_sound (p : List String) :
    ∀ (ds q : List String), ∀ x ∈ enqueueDests p q ds,
      x ∈ q ∨ (x ∈ ds ∧ x ∉ p ∧ x ≠ END_DEST) := by
  intro ds
  induction ds with
  | nil => intro q x hx; left; simpa [enqueueDests_nil] using hx
  | cons d ds ih =>
    intro q x hx
    rw [enqueueDests_cons] at hx
    rcases ih _ x hx with h | h
    · split at h
      · rcases List.mem_append.1 h with h' | h'
        · exact Or.inl h'
        · rename_i hcond
          simp only [List.mem_singleton] at h'
          subst h'
          exact Or.inr ⟨List.mem_cons_self _ _, hcond.2.1, hcond.2.2⟩
      · exact Or.inl h
    · exact Or.inr ⟨List.mem_cons_of_mem _ h.1, h.2⟩

theorem enqueueDests_complete (p : List String) :
    ∀ (ds q : List String), ∀ d ∈ ds, d ≠ END_DEST →
      d ∈ enqueueDests p q ds ∨ d ∈ p := by
  intro ds
  induction ds with
  | nil => intro q d hd; simp at hd
  | cons a ds ih =>
    intro q d hd hne
    rcases List.mem_cons.1 hd with rfl | hd'
    · by_cases hp : d ∈ p
      · exact Or.inr hp
      · left
        rw [enqueueDests_cons]
        refine enqueueDests_mono p ds _ d ?_
        by_cases hq : d ∈ q
        · split <;> simp [hq]
        · rw [if_pos ⟨hq, hp, hne⟩]
          simp
    · rw [enqueueDests_cons]
      exact ih _ d hd' hne

/-- Number of declared names not yet processed; the decreasing potential of
the traversals. -/
def remainingCount (names processed : List String) : Nat :=
  (names.filter (fun n => !(processed.contains n))).length

theorem remainingCount_nil (names : List String) :
    remainingCount names [] = names.length := by
  simp [remainingCount]

theorem filter_length_mono {α : Type} (p q : α → Bool) :
    ∀ (l : List α), (∀ a ∈ l, q a = true → p a = true) →
      (l.filter q).length ≤ (l.filter p).length := by
  intro l
  induction l with
  | nil => intro _; simp
  | cons a as ih =>
    intro h
    simp only [List.filter_cons]
    by_cases hq : q a = true
    · rw [if_pos hq, if_pos (h a (List.mem_cons_self a as) hq)]
      simpa using ih (fun x hx => h x (List.mem_cons_of_mem a hx))
    · rw [if_neg hq]
      have hle := ih (fun x hx => h x (List.mem_cons_of_mem a hx))
      by_cases hp : p a = true
      · rw [if_pos hp]
        simp only [List.length_cons]
        omega
      · rw [if_neg hp]
        exact hle

theorem filter_length_lt {α : Type} (p q : α → Bool) :
    ∀ (l : List α), (∀ a ∈ l, q a = true → p a = true) →
      ∀ x ∈ l, p x = true → q x = false →
      (l.filter q).length < (l.filter p).length := by
  intro l
  induction l with
  | nil => intro _ x hx; simp at hx
  | cons a as ih =>
    intro h x hx hpx hqx
    simp only [List.filter_cons]
    rcases List.mem_cons.1 hx with rfl | hx'
    · rw [if_neg (by simp [hqx]), if_pos hpx]
      simp only [List.length_cons]
      exact Nat.lt_succ_of_le
        (filter_length_mono p q as (fun b hb => h b (List.mem_cons_of_mem _ hb)))
    · have hlt := ih (fun b hb => h b (List.mem_cons_of_mem a hb)) x hx' hpx hqx
      by_cases hq : q a = true
      · rw [if_pos hq, if_pos (h a (List.mem_cons_self a as) hq)]
        simp only [List.length_cons]
        omega
      · rw [if_neg hq]
        by_cases hp : p a = true
        · rw [if_pos hp]
          simp only [List.length_cons]
          omega
        · rw [if_neg hp]
          exact hlt

theorem not_contains_true_iff (l : List String) (x : String) :
    (!(l.contains x)) = true ↔ x ∉ l := by simp

theorem remainingCount_le_of_subset (names : List String) (p p' : List String)
    (hsub : ∀ x, x ∈ p → x ∈ p') :
    remainingCount names p' ≤ remainingCount names p := by
  unfold remainingCount
  refine filter_length_mono _ _ names (fun a _ ha => ?_)
  rw [not_contains_true_iff] at *
  exact fun hmem => ha (hsub a hmem)

theorem remainingCount_lt (names : List String) (p : List String) (curr : String)
    (hmem : curr ∈ names) (hnp : curr ∉ p) :
    remainingCount names (p ++ [curr]) < remainingCount names p := by
  unfold remainingCount
  refine filter_length_lt _ _ names (fun a _ ha => ?_) curr hmem
    (by rw [not_contains_true_iff]; exact hnp) ?_
  · rw [not_contains_true_iff] at *
    exact fun hmemp => ha (List.mem_append_left _ hmemp)
  · have hc : curr ∈ p ++ [curr] := List.mem_append_right _ (List.mem_singleton.2 rfl)
    simp [hc]

theorem stateDests_ruleTo (st : StateDict) (d : String) :
    d ∈ stateDests st ↔ RuleTo st d := by
  unfold stateDests RuleTo
  simp only [List.mem_flatten, List.mem_map]
  constructor
  · rintro ⟨l, ⟨h, hh, rfl⟩, hd⟩
    obtain ⟨r, hr, hrd⟩ := List.mem_map.1 hd
    exact ⟨h, hh, r, hr, hrd⟩
  · rintro ⟨h, hh, r, hr, hrd⟩
    exact ⟨h.rule_specs.map (fun r => r.dest), ⟨h, hh, rfl⟩,
      List.mem_map.2 ⟨r, hr, hrd⟩⟩

theorem stateDests_length_le (sl : List StateDict) (st : StateDict) (h : st ∈ sl) :
    (stateDests st).length ≤ totalRuleCount sl := by
  unfold stateDests totalRuleCount
  rw [List.length_flatten]
  induction sl with
  | nil => simp at h
  | cons s rest ih =>
    rcases List.mem_cons.1 h with rfl | h'
    · simp only [List.map_cons, List.sum_cons]
      have : ((st.widget.handlers.map (fun h => h.rule_specs.map (fun r => r.dest))).map
          List.length) = st.widget.handlers.map (fun h => h.rule_specs.length) := by
        rw [List.map_map]
        congr 1
        funext h
        simp
      rw [this]
      exact Nat.le_add_right _ _
    · simp only [List.map_cons, List.sum_cons]
      have := ih h'
      omega

theorem findStateByName_mem (sl : List StateDict) (n : String) (st : StateDict)
    (h : findStateByName sl n = some st) : st ∈ sl ∧ st.name = n := by
  unfold findStateByName at h
  exact ⟨List.mem_of_find?_eq_some h, by simpa using List.find?_some h⟩

theorem findStateByName_isSome (sl : List StateDict) (n : String)
    (h : n ∈ sl.map StateDict.name) : ∃ st, findStateByName sl n = some st := by
  obtain ⟨st, hst, rfl⟩ := List.mem_map.1 h
  unfold findStateByName
  have : (sl.find? (fun s => s.name == st.name)).isSome :=
    List.find?_isSome.2 ⟨st, hst, by simp⟩
  cases hf : sl.find? (fun s => s.name == st.name) with
  | some st' => exact ⟨st', rfl⟩
  | none => rw [hf] at this; simp at this

theorem findStateByName_of_nodup (sl : List StateDict)
    (hnodup : (sl.map StateDict.name).Nodup) (st : StateDict) (hst : st ∈ sl) :
    findStateByName sl st.name = some st := by
  induction sl with
  | nil => simp at hst
  | cons s rest ih =>
    rcases List.mem_cons.1 hst with rfl | h'
    · unfold findStateByName
      simp [List.find?]
    · have hname : s.name ≠ st.name := by
        intro hcontra
        have : st.name ∈ rest.map StateDict.name := List.mem_map.2 ⟨st, h', rfl⟩
        rw [← hcontra] at this
        exact (List.nodup_cons.1 (by simpa using hnodup)).1 this
      unfold findStateByName
      simp only [List.find?]
      rw [show (s.name == st.name) = false by simpa using hname]
      exact ih (List.nodup_cons.1 (by simpa using hnodup)).2 h'

theorem reachLoop_spec (sl : List StateDict) (s0 : String)
    (hdests : ∀ st ∈ sl, ∀ d ∈ stateDests st,
      d = END_DEST ∨ d ∈ sl.map StateDict.name) :
    ∀ (fuel : Nat) (processed q : List String),
      processed.Nodup →
      (∀ x ∈ processed, x ∈ sl.map StateDict.name) →
      (∀ x ∈ q, x ∈ sl.map StateDict.name) →
      (∀ x ∈ processed, Reach sl s0 x) →
      (∀ x ∈ q, Reach sl s0 x) →
      (∀ x ∈ processed, ∀ st, findStateByName sl x = some st →
        ∀ d ∈ stateDests st, d ≠ END_DEST → d ∈ processed ∨ d ∈ q) →
      remainingCount (sl.map StateDict.name) processed * (totalRuleCount sl + 1) +
        q.length ≤ fuel →
      ∃ P, reachLoop sl fuel processed q = .ok P ∧
        P.Nodup ∧
        (∀ x ∈ P, x ∈ sl.map StateDict.name ∧ Reach sl s0 x) ∧
        (∀ x ∈ processed, x ∈ P) ∧ (∀ x ∈ q, x ∈ P) ∧
        (∀ x ∈ P, ∀ st, findStateByName sl x = some st →
          ∀ d ∈ stateDests st, d ≠ END_DEST → d ∈ P) := by
  intro fuel
  induction fuel with
  | zero =>
    intro processed q hnd hpn hqn hpr hqr hcl hfuel
    have hq : q = [] := by
      generalize hB : remainingCount (sl.map StateDict.name) processed
        * (totalRuleCount sl + 1) = B at hfuel
      exact List.length_eq_zero.1 (by omega)
    subst hq
    refine ⟨processed, rfl, hnd, fun x hx => ⟨hpn x hx, hpr x hx⟩, fun x hx => hx,
      fun x hx => absurd hx (List.not_mem_nil x), ?_⟩
    intro x hx st hst d hd hdne
    rcases hcl x hx st hst d hd hdne with h | h
    · exact h
    · exact absurd h (List.not_mem_nil d)
  | succ fuel ih =>
    intro processed q hnd hpn hqn hpr hqr hcl hfuel
    cases q with
    | nil =>
      refine ⟨processed, rfl, hnd, fun x hx => ⟨hpn x hx, hpr x hx⟩, fun x hx => hx,
        fun x hx => absurd hx (List.not_mem_nil x), ?_⟩
      intro x hx st hst d hd hdne
      rcases hcl x hx st hst d hd hdne with h | h
      · exact h
      · exact absurd h (List.not_mem_nil d)
    | cons curr rest =>
      by_cases hmem : curr ∈ processed
      · -- the popped name was already processed: skip it
        have hstep : reachLoop sl (fuel + 1) processed (curr :: rest) =
            reachLoop sl fuel processed rest := by
          simp only [reachLoop, if_pos hmem]
        rw [hstep]
        have hcl2 : ∀ x ∈ processed, ∀ st, findStateByName sl x = some st →
            ∀ d ∈ stateDests st, d ≠ END_DEST → d ∈ processed ∨ d ∈ rest := by
          intro x hx st hst d hd hdne
          rcases hcl x hx st hst d hd hdne with h | h
          · exact Or.inl h
          · rcases List.mem_cons.1 h with rfl | h'
            · exact Or.inl hmem
            · exact Or.inr h'
        have hfuel2 : remainingCount (sl.map StateDict.name) processed
            * (totalRuleCount sl + 1) + rest.length ≤ fuel := by
          generalize hB : remainingCount (sl.map StateDict.name) processed
            * (totalRuleCount sl + 1) = B at hfuel ⊢
          simp only [List.length_cons] at hfuel
          omega
        obtain ⟨P, hP, hPnd, hPprop, hPp, hPq, hPcl⟩ :=
          ih processed rest hnd hpn (fun x hx => hqn x (List.mem_cons_of_mem _ hx)) hpr
            (fun x hx => hqr x (List.mem_cons_of_mem _ hx)) hcl2 hfuel2
        refine ⟨P, hP, hPnd, hPprop, hPp, ?_, hPcl⟩
        intro x hx
        rcases List.mem_cons.1 hx with rfl | hx'
        · exact hPp x hmem
        · exact hPq x hx'
      · -- a new name: process it and enqueue its destinations
        have hcn : curr ∈ sl.map StateDict.name := hqn curr (List.mem_cons_self _ _)
        obtain ⟨st, hfind⟩ := findStateByName_isSome sl curr hcn
        obtain ⟨hstmem, hstname⟩ := findStateByName_mem sl curr st hfind
        have hstep : reachLoop sl (fuel + 1) processed (curr :: rest) =
            reachLoop sl fuel (processed ++ [curr])
              (enqueueDests (processed ++ [curr]) rest (stateDests st)) := by
          simp only [reachLoop, if_neg hmem, hfind]
        rw [hstep]
        have hnd' : (processed ++ [curr]).Nodup := by
          simp [List.nodup_append, hnd, hmem]
        have hpn' : ∀ x ∈ processed ++ [curr], x ∈ sl.map StateDict.name := by
          intro x hx
          rcases List.mem_append.1 hx with h | h
          · exact hpn x h
          · simp only [List.mem_singleton] at h
            subst h
            exact hcn
        have hqn' : ∀ x ∈ enqueueDests (processed ++ [curr]) rest (stateDests st),
            x ∈ sl.map StateDict.name := by
          intro x hx
          rcases enqueueDests_sound (processed ++ [curr]) (stateDests st) rest x hx with h | h
          · exact hqn x (List.mem_cons_of_mem _ h)
          · rcases hdests st hstmem x h.1 with he | hn
            · exact absurd he h.2.2
            · exact hn
        have hreach_curr : Reach sl s0 curr := hqr curr (List.mem_cons_self _ _)
        have hpr' : ∀ x ∈ processed ++ [curr], Reach sl s0 x := by
          intro x hx
          rcases List.mem_append.1 hx with h | h
          · exact hpr x h
          · simp only [List.mem_singleton] at h
            subst h
            exact hreach_curr
        have hqr' : ∀ x ∈ enqueueDests (processed ++ [curr]) rest (stateDests st),
            Reach sl s0 x := by
          intro x hx
          rcases enqueueDests_sound (processed ++ [curr]) (stateDests st) rest x hx with h | h
          · exact hqr x (List.mem_cons_of_mem _ h)
          · exact Reach.step curr x st hreach_curr hstmem hstname
              ((stateDests_ruleTo st x).1 h.1) h.2.2
        have hcl' : ∀ x ∈ processed ++ [curr], ∀ st', findStateByName sl x = some st' →
            ∀ d ∈ stateDests st', d ≠ END_DEST →
              d ∈ processed ++ [curr] ∨
              d ∈ enqueueDests (processed ++ [curr]) rest (stateDests st) := by
          intro x hx st' hst' d hd hdne
          rcases List.mem_append.1 hx with h | h
          · rcases hcl x h st' hst' d hd hdne with hh | hh
            · exact Or.inl (List.mem_append_left _ hh)
            · rcases List.mem_cons.1 hh with rfl | hh'
              · exact Or.inl (List.mem_append_right _ (List.mem_singleton.2 rfl))
              · exact Or.inr (enqueueDests_mono _ (stateDests st) rest d hh')
          · simp only [List.mem_singleton] at h
            rw [h] at hst'
            rw [hfind] at hst'
            injection hst' with hst'eq
            rw [← hst'eq] at hd
            rcases enqueueDests_complete (processed ++ [curr]) (stateDests st) rest d
              hd hdne with hh | hh
            · exact Or.inr hh
            · exact Or.inl hh
        have hfuel' : remainingCount (sl.map StateDict.name) (processed ++ [curr])
            * (totalRuleCount sl + 1)
            + (enqueueDests (processed ++ [curr]) rest (stateDests st)).length ≤ fuel := by
          have h1 : remainingCount (sl.map StateDict.name) (processed ++ [curr]) <
              remainingCount (sl.map StateDict.name) processed :=
            remainingCount_lt _ _ _ hcn hmem
          have h2 : (enqueueDests (processed ++ [curr]) rest (stateDests st)).length ≤
              rest.length + (stateDests st).length :=
            enqueueDests_length _ (stateDests st) rest
          have h3 : (stateDests st).length ≤ totalRuleCount sl :=
            stateDests_length_le sl st hstmem
          have h4 : remainingCount (sl.map StateDict.name) (processed ++ [curr])
              * (totalRuleCount sl + 1) + (totalRuleCount sl + 1)
              ≤ remainingCount (sl.map StateDict.name) processed
                * (totalRuleCount sl + 1) := by
            calc remainingCount (sl.map StateDict.name) (processed ++ [curr])
                  * (totalRuleCount sl + 1) + (totalRuleCount sl + 1)
                = (remainingCount (sl.map StateDict.name) (processed ++ [curr]) + 1)
                  * (totalRuleCount sl + 1) := by ring
              _ ≤ remainingCount (sl.map StateDict.name) processed
                  * (totalRuleCount sl + 1) :=
                Nat.mul_le_mul_right _ (Nat.succ_le_of_lt h1)
          generalize hA : remainingCount (sl.map StateDict.name) (processed ++ [curr])
            * (totalRuleCount sl + 1) = A at h4 ⊢
          generalize hB : remainingCount (sl.map StateDict.name) processed
            * (totalRuleCount sl + 1) = B at h4 hfuel
          simp only [List.length_cons] at hfuel
          omega
        obtain ⟨P, hP, hPnd, hPprop, hPp, hPq, hPcl⟩ :=
          ih (processed ++ [curr]) (enqueueDests (processed ++ [curr]) rest (stateDests st))
            hnd' hpn' hqn' hpr' hqr' hcl' hfuel'
        refine ⟨P, hP, hPnd, hPprop, ?_, ?_, hPcl⟩
        · intro x hx
          exact hPp x (List.mem_append_left _ hx)
        · intro x hx
          rcases List.mem_cons.1 hx with rfl | hx'
          · exact hPp x (List.mem_append_right _ (List.mem_singleton.2 rfl))
          · exact hPq x (enqueueDests_mono _ (stateDests st) rest x hx')

theorem reach_mem_P (sl : List StateDict) (s0 : String) (P : List String)
    (hnodup : (sl.map StateDict.name).Nodup) (hs0 : s0 ∈ P)
    (hcl : ∀ x ∈ P, ∀ st, findStateByName sl x = some st →
      ∀ d ∈ stateDests st, d ≠ END_DEST → d ∈ P) :
    ∀ x, Reach sl s0 x → x ∈ P := by
  intro x hx
  induction hx with
  | refl => exact hs0
  | step b d st hreach hstmem hstname hrule hne ihb =>
    have hfind : findStateByName sl b = some st := by
      rw [← hstname]
      exact findStateByName_of_nodup sl hnodup st hstmem
    exact hcl b ihb st hfind d ((stateDests_ruleTo st d).2 hrule) hne

/-- C2 (amended): for every non-empty states list with pairwise-distinct
state names whose every rule destination is a declared state name or the
terminal sentinel, `_verify_all_states_reachable` reports no violation when
every declared state is reachable from the initial state, and otherwise
raises a violation naming exactly the declared states that are not
reachable from the initial state by following rule destinations forward
(terminal-sentinel edges excluded). -/
theorem c2_reachability_check (st0 : StateDict) (tl : List StateDict)
    (hnodup : ((st0 :: tl).map StateDict.name).Nodup)
    (hdests : ∀ st ∈ st0 :: tl, ∀ d ∈ stateDests st,
      d = END_DEST ∨ d ∈ (st0 :: tl).map StateDict.name) :
    ((∀ n ∈ (st0 :: tl).map StateDict.name, Reach (st0 :: tl) st0.name n) →
      verify_all_states_reachable (st0 :: tl) = .ok) ∧
    (∀ n0 ∈ (st0 :: tl).map StateDict.name, ¬Reach (st0 :: tl) st0.name n0 →
      ∃ L, verify_all_states_reachable (st0 :: tl) = .violation L ∧
        ∀ x, x ∈ L ↔ x ∈ (st0 :: tl).map StateDict.name ∧
          ¬Reach (st0 :: tl) st0.name x) := by
  have hq : ∀ x ∈ [st0.name], x ∈ (st0 :: tl).map StateDict.name := by
    intro x hx
    simp only [List.mem_singleton] at hx
    subst hx
    exact List.mem_map.2 ⟨st0, List.mem_cons_self _ _, rfl⟩
  have hqr : ∀ x ∈ [st0.name], Reach (st0 :: tl) st0.name x := by
    intro x hx
    simp only [List.mem_singleton] at hx
    subst hx
    exact Reach.refl
  have hfuel : remainingCount ((st0 :: tl).map StateDict.name) []
      * (totalRuleCount (st0 :: tl) + 1) + ([st0.name]).length ≤
      reachFuel (st0 :: tl) := by
    rw [remainingCount_nil]
    simp [reachFuel]
  obtain ⟨P, hP, hPnd, hPprop, _hPp, hPq, hPcl⟩ :=
    reachLoop_spec (st0 :: tl) st0.name hdests (reachFuel (st0 :: tl)) [] [st0.name]
      List.nodup_nil (fun x hx => absurd hx (List.not_mem_nil x)) hq
      (fun x hx => absurd hx (List.not_mem_nil x)) hqr
      (fun x hx => absurd hx (List.not_mem_nil x)) hfuel
  have hs0P : st0.name ∈ P := hPq st0.name (List.mem_singleton.2 rfl)
  have hcomp : ∀ x, Reach (st0 :: tl) st0.name x → x ∈ P :=
    reach_mem_P (st0 :: tl) st0.name P hnodup hs0P hPcl
  have hPsub : P ⊆ (st0 :: tl).map StateDict.name := fun x hx => (hPprop x hx).1
  constructor
  · intro hall
    have hlen1 : P.length ≤ ((st0 :: tl).map StateDict.name).length :=
      (hPnd.subperm hPsub).length_le
    have hlen2 : ((st0 :: tl).map StateDict.name).length ≤ P.length :=
      (hnodup.subperm (fun n hn => hcomp n (hall n hn))).length_le
    have hmaplen : ((st0 :: tl).map StateDict.name).length = (st0 :: tl).length :=
      List.length_map _ _
    simp only [verify_all_states_reachable, hP]
    rw [if_neg (by omega)]
  · intro n0 hn0 hnr
    have hn0P : n0 ∉ P := fun hmem => hnr ((hPprop n0 hmem).2)
    have hstrict : (P ++ [n0]).Nodup := by
      simp [List.nodup_append, hPnd, hn0P]
    have hsub2 : P ++ [n0] ⊆ (st0 :: tl).map StateDict.name := by
      intro x hx
      rcases List.mem_append.1 hx with h | h
      · exact hPsub h
      · simp only [List.mem_singleton] at h
        subst h
        exact hn0
    have hlt : P.length < ((st0 :: tl).map StateDict.name).length := by
      have := (hstrict.subperm hsub2).length_le
      simp only [List.length_append, List.length_cons, List.length_nil] at this
      omega
    have hmaplen : ((st0 :: tl).map StateDict.name).length = (st0 :: tl).length :=
      List.length_map _ _
    refine ⟨((st0 :: tl).map StateDict.name).dedup.filter
      (fun n => !(P.contains n)), ?_, ?_⟩
    · simp only [verify_all_states_reachable, hP]
      rw [if_pos (by omega)]
    · intro x
      rw [List.dedup_eq_self.2 hnodup]
      constructor
      · intro hx
        have := List.mem_filter.1 hx
        refine ⟨this.1, ?_⟩
        have hnotP : x ∉ P := (not_contains_true_iff P x).1 this.2
        exact fun hr => hnotP (hcomp x hr)
      · intro ⟨hxn, hxr⟩
        refine List.mem_filter.2 ⟨hxn, (not_contains_true_iff P x).2 ?_⟩
        exact fun hmem => hxr ((hPprop x hmem).2)

/-- C2 counterexample: on the concrete one-state list whose only rule points
at the undeclared name `B`, every declared state is reachable from the
initial state, yet the check does not report success (or any violation): it
escapes with the `StopIteration` of its state lookup. -/
theorem c2_counterexample :
    verify_all_states_reachable [exC2Bad] = .fail "StopIteration" ∧
    [exC2Bad].map StateDict.name = ["A"] ∧
    Reach [exC2Bad] "A" "A" :=
  ⟨rfl, rfl, Reach.refl⟩

theorem c2_reachability_check_witness :
    verify_all_states_reachable [exC2Good] = .ok :=
  (c2_reachability_check exC2Good [] (by decide) (by decide)).1
    (fun n hn => by
      have h : n = "A" := by simpa using hn
      subst h
      exact Reach.refl)

/-! ### C3: dead-end check -/

theorem anyRuleTo_iff (h : AnswerHandler) (curr : String) :
    anyRuleTo h curr = true ↔ ∃ r ∈ h.rule_specs, r.dest = curr := by
  simp [anyRuleTo]

theorem ruleTo_iff_handlers (st : StateDict) (curr : String) :
    RuleTo st curr ↔ ∃ h ∈ st.widget.handlers, anyRuleTo h curr = true := by
  unfold RuleTo
  simp [anyRuleTo_iff]

theorem appendIfPointsTo_nil (state_name curr : String) (q : List String) :
    appendIfPointsTo state_name curr [] q = q := rfl

theorem appendIfPointsTo_cons (state_name curr : String) (h : AnswerHandler)
    (hs : List AnswerHandler) (q : List String) :
    appendIfPointsTo state_name curr (h :: hs) q =
      appendIfPointsTo state_name curr hs
        (if anyRuleTo h curr then q ++ [state_name] else q) := rfl

theorem appendIfPointsTo_mono (state_name curr : String) :
    ∀ (hs : List AnswerHandler) (q : List String), ∀ x ∈ q,
      x ∈ appendIfPointsTo state_name curr hs q := by
  intro hs
  induction hs with
  | nil => intro q x hx; simpa [appendIfPointsTo_nil] using hx
  | cons h hs ih =>
    intro q x hx
    rw [appendIfPointsTo_cons]
    split
    · exact ih _ x (by simp [hx])
    · exact ih _ x hx

theorem appendIfPointsTo_length (state_name curr : String) :
    ∀ (hs : List AnswerHandler) (q : List String),
      (appendIfPointsTo state_name curr hs q).length ≤ q.length + hs.length := by
  intro hs
  induction hs with
  | nil => intro q; simp [appendIfPointsTo_nil]
  | cons h hs ih =>
    intro q
    rw [appendIfPointsTo_cons]
    split
    · have := ih (q ++ [state_name])
      simp only [List.length_append, List.length_cons, List.length_nil] at *
      omega
    · have := ih q
      simp only [List.length_cons] at *
      omega

theorem appendIfPointsTo_sound (state_name curr : String) :
    ∀ (hs : List AnswerHandler) (q : List String), ∀ x ∈ appendIfPointsTo state_name curr hs q,
      x ∈ q ∨ (x = state_name ∧ ∃ h ∈ hs, anyRuleTo h curr = true) := by
  intro hs
  induction hs with
  | nil => intro q x hx; left; simpa [appendIfPointsTo_nil] using hx
  | cons h hs ih =>
    intro q x hx
    rw [appendIfPointsTo_cons] at hx
    rcases ih _ x hx with hh | hh
    · split at hh
      · rcases List.mem_append.1 hh with h' | h'
        · exact Or.inl h'
        · rename_i hcond
          simp only [List.mem_singleton] at h'
          exact Or.inr ⟨h', h, List.mem_cons_self _ _, hcond⟩
      · exact Or.inl hh
    · exact Or.inr ⟨hh.1, hh.2.choose, List.mem_cons_of_mem _ hh.2.choose_spec.1,
        hh.2.choose_spec.2⟩

theorem appendIfPointsTo_complete (state_name curr : String) :
    ∀ (hs : List AnswerHandler) (q : List String),
      (∃ h ∈ hs, anyRuleTo h curr = true) →
      state_name ∈ appendIfPointsTo state_name curr hs q := by
  intro hs
  induction hs with
  | nil => intro q h; simp at h
  | cons h hs ih =>
    intro q ⟨h', hh', hany⟩
    rw [appendIfPointsTo_cons]
    rcases List.mem_cons.1 hh' with rfl | hmem
    · rw [if_pos hany]
      exact appendIfPointsTo_mono _ _ hs _ state_name (by simp)
    · exact ih _ ⟨h', hmem, hany⟩

theorem appendIfPointsTo_count (state_name curr x : String) (hne : x ≠ state_name) :
    ∀ (hs : List AnswerHandler) (q : List String),
      (appendIfPointsTo state_name curr hs q).count x = q.count x := by
  intro hs
  induction hs with
  | nil => intro q; simp [appendIfPointsTo_nil]
  | cons h hs ih =>
    intro q
    rw [appendIfPointsTo_cons]
    split
    · rw [ih]
      simp [List.count_append, List.count_singleton, hne]
    · exact ih q

theorem scanAppend_nil (curr : String) (p q : List String) :
    scanAppend [] curr p q = q := rfl

theorem scanAppend_cons (st : StateDict) (sl : List StateDict) (curr : String)
    (p q : List String) :
    scanAppend (st :: sl) curr p q =
      scanAppend sl curr p
        (if st.name ∉ q ∧ st.name ∉ p then
          appendIfPointsTo st.name curr st.widget.handlers q
        else q) := rfl

theorem scanAppend_mono (curr : String) (p : List String) :
    ∀ (sl : List StateDict) (q : List String), ∀ x ∈ q, x ∈ scanAppend sl curr p q := by
  intro sl
  induction sl with
  | nil => intro q x hx; simpa [scanAppend_nil] using hx
  | cons st sl ih =>
    intro q x hx
    rw [scanAppend_cons]
    split
    · exact ih _ x (appendIfPointsTo_mono _ _ _ _ x hx)
    · exact ih _ x hx

theorem scanAppend_length (curr : String) (p : List String) :
    ∀ (sl : List StateDict) (q : List String),
      (scanAppend sl curr p q).length ≤ q.length + totalHandlerCount sl := by
  intro sl
  induction sl with
  | nil => intro q; simp [scanAppend_nil, totalHandlerCount]
  | cons st sl ih =>
    intro q
    rw [scanAppend_cons]
    have hT : totalHandlerCount (st :: sl) =
        st.widget.handlers.length + totalHandlerCount sl := by
      simp [totalHandlerCount]
    split
    · have h1 := ih (appendIfPointsTo st.name curr st.widget.handlers q)
      have h2 := appendIfPointsTo_length st.name curr st.widget.handlers q
      omega
    · have h1 := ih q
      omega

theorem scanAppend_sound (curr : String) (p : List String) :
    ∀ (sl : List StateDict) (q : List String), ∀ x ∈ scanAppend sl curr p q,
      x ∈ q ∨ ∃ st ∈ sl, x = st.name ∧ RuleTo st curr := by
  intro sl
  induction sl with
  | nil => intro q x hx; left; simpa [scanAppend_nil] using hx
  | cons st sl ih =>
    intro q x hx
    rw [scanAppend_cons] at hx
    rcases ih _ x hx with hh | hh
    · split at hh
      · rcases appendIfPointsTo_sound st.name curr st.widget.handlers q x hh with h' | h'
        · exact Or.inl h'
        · exact Or.inr ⟨st, List.mem_cons_self _ _, h'.1,
            (ruleTo_iff_handlers st curr).2 h'.2⟩
      · exact Or.inl hh
    · obtain ⟨st', hst', hx', hr'⟩ := hh
      exact Or.inr ⟨st', List.mem_cons_of_mem _ hst', hx', hr'⟩

theorem scanAppend_complete (curr : String) (p : List String) :
    ∀ (sl : List StateDict) (q : List String), ∀ st ∈ sl, RuleTo st curr →
      st.name ∈ scanAppend sl curr p q ∨ st.name ∈ p := by
  intro sl
  induction sl with
  | nil => intro q st hst; simp at hst
  | cons s sl ih =>
    intro q st hst hrule
    rcases List.mem_cons.1 hst with rfl | hmem
    · rw [scanAppend_cons]
      by_cases hp : st.name ∈ p
      · exact Or.inr hp
      · left
        by_cases hq : st.name ∈ q
        · refine scanAppend_mono curr p sl _ st.name ?_
          split
          · exact appendIfPointsTo_mono _ _ _ _ st.name hq
          · exact hq
        · rw [if_pos ⟨hq, hp⟩]
          exact scanAppend_mono curr p sl _ st.name
            (appendIfPointsTo_complete st.name curr st.widget.handlers q
              ((ruleTo_iff_handlers st curr).1 hrule))
    · rw [scanAppend_cons]
      exact ih _ st hmem hrule

theorem scanAppend_count (curr x : String) (p : List String) :
    ∀ (sl : List StateDict), x ∉ sl.map StateDict.name → ∀ (q : List String),
      (scanAppend sl curr p q).count x = q.count x := by
  intro sl
  induction sl with
  | nil => intro _ q; simp [scanAppend_nil]
  | cons st sl ih =>
    intro hx q
    have hxst : x ≠ st.name := by
      intro hcontra
      exact hx (by simp [hcontra])
    have hxsl : x ∉ sl.map StateDict.name := by
      intro hcontra
      exact hx (List.mem_cons_of_mem _ hcontra)
    rw [scanAppend_cons]
    split
    · rw [ih hxsl, appendIfPointsTo_count st.name curr x hxst]
    · exact ih hxsl q

theorem deadLoop_spec (sl : List StateDict)
    (hnoend : END_DEST ∉ sl.map StateDict.name) :
    ∀ (fuel : Nat) (processed q : List String),
      processed.Nodup →
      (∀ x ∈ processed, x ∈ sl.map StateDict.name) →
      (∀ x ∈ q, x = END_DEST ∨ x ∈ sl.map StateDict.name) →
      q.count END_DEST ≤ 1 →
      (∀ x ∈ processed, CanReachEnd sl x) →
      (∀ x ∈ q, x ≠ END_DEST → CanReachEnd sl x) →
      (END_DEST ∈ q ∨ ∀ st ∈ sl, RuleTo st END_DEST →
        st.name ∈ processed ∨ st.name ∈ q) →
      (∀ d ∈ processed, ∀ st ∈ sl, RuleTo st d → st.name ∈ processed ∨ st.name ∈ q) →
      remainingCount (sl.map StateDict.name) processed * (totalHandlerCount sl + 1) +
        q.length + q.count END_DEST * (totalHandlerCount sl + 1) ≤ fuel →
      ∃ P, deadLoop sl fuel processed q = .ok P ∧
        P.Nodup ∧
        (∀ x ∈ P, x ∈ sl.map StateDict.name ∧ CanReachEnd sl x) ∧
        (∀ x ∈ processed, x ∈ P) ∧ (∀ x ∈ q, x ≠ END_DEST → x ∈ P) ∧
        (∀ st ∈ sl, RuleTo st END_DEST → st.name ∈ P) ∧
        (∀ d ∈ P, ∀ st ∈ sl, RuleTo st d → st.name ∈ P) := by
  intro fuel
  induction fuel with
  | zero =>
    intro processed q hnd hpn hqn hqc hpr hqr hclE hclP hfuel
    have hq : q = [] := by
      generalize hB : remainingCount (sl.map StateDict.name) processed
        * (totalHandlerCount sl + 1) = B at hfuel
      generalize hC : q.count END_DEST * (totalHandlerCount sl + 1) = C at hfuel
      exact List.length_eq_zero.1 (by omega)
    subst hq
    have hclE' : ∀ st ∈ sl, RuleTo st END_DEST → st.name ∈ processed := by
      intro st hst hr
      rcases hclE with h | h
      · exact absurd h (List.not_mem_nil _)
      · rcases h st hst hr with hh | hh
        · exact hh
        · exact absurd hh (List.not_mem_nil _)
    refine ⟨processed, rfl, hnd, fun x hx => ⟨hpn x hx, hpr x hx⟩, fun x hx => hx,
      fun x hx => absurd hx (List.not_mem_nil x), hclE', ?_⟩
    intro d hd st hst hr
    rcases hclP d hd st hst hr with h | h
    · exact h
    · exact absurd h (List.not_mem_nil _)
  | succ fuel ih =>
    intro processed q hnd hpn hqn hqc hpr hqr hclE hclP hfuel
    have hpe : END_DEST ∉ processed := fun h => hnoend (hpn _ h)
    cases q with
    | nil =>
      have hclE' : ∀ st ∈ sl, RuleTo st END_DEST → st.name ∈ processed := by
        intro st hst hr
        rcases hclE with h | h
        · exact absurd h (List.not_mem_nil _)
        · rcases h st hst hr with hh | hh
          · exact hh
          · exact absurd hh (List.not_mem_nil _)
      refine ⟨processed, rfl, hnd, fun x hx => ⟨hpn x hx, hpr x hx⟩, fun x hx => hx,
        fun x hx => absurd hx (List.not_mem_nil x), hclE', ?_⟩
      intro d hd st hst hr
      rcases hclP d hd st hst hr with h | h
      · exact h
      · exact absurd h (List.not_mem_nil _)
    | cons curr rest =>
      by_cases hmem : curr ∈ processed
      · -- already processed: skip
        have hcurrne : curr ≠ END_DEST := fun h => hpe (h ▸ hmem)
        have hstep : deadLoop sl (fuel + 1) processed (curr :: rest) =
            deadLoop sl fuel processed rest := by
          simp only [deadLoop, if_pos hmem]
        rw [hstep]
        have hcount : (curr :: rest).count END_DEST = rest.count END_DEST := by
          rw [List.count_cons]
          simp [hcurrne, Ne.symm hcurrne]
        have hclE2 : END_DEST ∈ rest ∨ ∀ st ∈ sl, RuleTo st END_DEST →
            st.name ∈ processed ∨ st.name ∈ rest := by
          rcases hclE with h | h
          · rcases List.mem_cons.1 h with hh | hh
            · exact absurd hh.symm hcurrne
            · exact Or.inl hh
          · right
            intro st hst hr
            rcases h st hst hr with hh | hh
            · exact Or.inl hh
            · rcases List.mem_cons.1 hh with rfl | hh'
              · exact Or.inl hmem
              · exact Or.inr hh'
        have hclP2 : ∀ d ∈ processed, ∀ st ∈ sl, RuleTo st d →
            st.name ∈ processed ∨ st.name ∈ rest := by
          intro d hd st hst hr
          rcases hclP d hd st hst hr with h | h
          · exact Or.inl h
          · rcases List.mem_cons.1 h with rfl | h'
            · exact Or.inl hmem
            · exact Or.inr h'
        have hfuel2 : remainingCount (sl.map StateDict.name) processed
            * (totalHandlerCount sl + 1) + rest.length +
            rest.count END_DEST * (totalHandlerCount sl + 1) ≤ fuel := by
          rw [hcount] at hfuel
          generalize hB : remainingCount (sl.map StateDict.name) processed
            * (totalHandlerCount sl + 1) = B at hfuel ⊢
          generalize hC : rest.count END_DEST * (totalHandlerCount sl + 1) = C at hfuel ⊢
          simp only [List.length_cons] at hfuel
          omega
        obtain ⟨P, hP, hPnd, hPprop, hPp, hPq, hPe, hPcl⟩ :=
          ih processed rest hnd hpn (fun x hx => hqn x (List.mem_cons_of_mem _ hx))
            (by rw [hcount] at hqc; exact hqc) hpr
            (fun x hx => hqr x (List.mem_cons_of_mem _ hx)) hclE2 hclP2 hfuel2
        refine ⟨P, hP, hPnd, hPprop, hPp, ?_, hPe, hPcl⟩
        intro x hx hxne
        rcases List.mem_cons.1 hx with rfl | hx'
        · exact hPp x hmem
        · exact hPq x hx' hxne
      · by_cases hend : curr = END_DEST
        · -- popping the terminal sentinel seed
          subst hend
          have hstep : deadLoop sl (fuel + 1) processed (END_DEST :: rest) =
              deadLoop sl fuel processed (scanAppend sl END_DEST processed rest) := by
            simp [deadLoop, hmem]
          rw [hstep]
          have hrest0 : rest.count END_DEST = 0 := by
            have : (END_DEST :: rest).count END_DEST = rest.count END_DEST + 1 := by
              rw [List.count_cons]
              simp
            omega
          have hqn2 : ∀ x ∈ scanAppend sl END_DEST processed rest,
              x = END_DEST ∨ x ∈ sl.map StateDict.name := by
            intro x hx
            rcases scanAppend_sound END_DEST processed sl rest x hx with h | h
            · exact hqn x (List.mem_cons_of_mem _ h)
            · obtain ⟨st, hst, rfl, _⟩ := h
              exact Or.inr (List.mem_map.2 ⟨st, hst, rfl⟩)
          have hqc2 : (scanAppend sl END_DEST processed rest).count END_DEST ≤ 1 := by
            rw [scanAppend_count END_DEST END_DEST processed sl hnoend rest, hrest0]
            omega
          have hqr2 : ∀ x ∈ scanAppend sl END_DEST processed rest, x ≠ END_DEST →
              CanReachEnd sl x := by
            intro x hx hxne
            rcases scanAppend_sound END_DEST processed sl rest x hx with h | h
            · exact hqr x (List.mem_cons_of_mem _ h) hxne
            · obtain ⟨st, hst, rfl, hr⟩ := h
              exact CanReachEnd.toEnd st hst hr
          have hclE2 : END_DEST ∈ scanAppend sl END_DEST processed rest ∨
              ∀ st ∈ sl, RuleTo st END_DEST →
                st.name ∈ processed ∨ st.name ∈ scanAppend sl END_DEST processed rest := by
            right
            intro st hst hr
            rcases scanAppend_complete END_DEST processed sl rest st hst hr with h | h
            · exact Or.inr h
            · exact Or.inl h
          have hclP2 : ∀ d ∈ processed, ∀ st ∈ sl, RuleTo st d →
              st.name ∈ processed ∨ st.name ∈ scanAppend sl END_DEST processed rest := by
            intro d hd st hst hr
            rcases hclP d hd st hst hr with h | h
            · exact Or.inl h
            · rcases List.mem_cons.1 h with hh | hh
              · exfalso
                exact hnoend (hh ▸ List.mem_map.2 ⟨st, hst, rfl⟩)
              · exact Or.inr (scanAppend_mono END_DEST processed sl rest st.name hh)
          have hfuel2 : remainingCount (sl.map StateDict.name) processed
              * (totalHandlerCount sl + 1) +
              (scanAppend sl END_DEST processed rest).length +
              (scanAppend sl END_DEST processed rest).count END_DEST
                * (totalHandlerCount sl + 1) ≤ fuel := by
            have hlen : (scanAppend sl END_DEST processed rest).length ≤
                rest.length + totalHandlerCount sl :=
              scanAppend_length END_DEST processed sl rest
            have hcnt : (scanAppend sl END_DEST processed rest).count END_DEST = 0 := by
              rw [scanAppend_count END_DEST END_DEST processed sl hnoend rest]
              exact hrest0
            have hcq : (END_DEST :: rest).count END_DEST = 1 := by
              rw [List.count_cons, hrest0]
              simp
            rw [hcq] at hfuel
            rw [hcnt]
            generalize hB : remainingCount (sl.map StateDict.name) processed
              * (totalHandlerCount sl + 1) = B at hfuel ⊢
            simp only [List.length_cons, Nat.one_mul] at hfuel ⊢
            omega
          obtain ⟨P, hP, hPnd, hPprop, hPp, hPq, hPe, hPcl⟩ :=
            ih processed (scanAppend sl END_DEST processed rest) hnd hpn hqn2 hqc2 hpr
              hqr2 hclE2 hclP2 hfuel2
          refine ⟨P, hP, hPnd, hPprop, hPp, ?_, hPe, hPcl⟩
          intro x hx hxne
          rcases List.mem_cons.1 hx with rfl | hx'
          · exact absurd rfl hxne
          · exact hPq x (scanAppend_mono END_DEST processed sl rest x hx') hxne
        · -- a fresh state name: process it
          have hcn : curr ∈ sl.map StateDict.name := by
            rcases hqn curr (List.mem_cons_self _ _) with h | h
            · exact absurd h hend
            · exact h
          have hstep : deadLoop sl (fuel + 1) processed (curr :: rest) =
              deadLoop sl fuel (processed ++ [curr])
                (scanAppend sl curr (processed ++ [curr]) rest) := by
            simp [deadLoop, hmem, hend]
          rw [hstep]
          have hreach_curr : CanReachEnd sl curr :=
            hqr curr (List.mem_cons_self _ _) hend
          have hnd2 : (processed ++ [curr]).Nodup := by
            simp [List.nodup_append, hnd, hmem]
          have hpn2 : ∀ x ∈ processed ++ [curr], x ∈ sl.map StateDict.name := by
            intro x hx
            rcases List.mem_append.1 hx with h | h
            · exact hpn x h
            · simp only [List.mem_singleton] at h
              subst h
              exact hcn
          have hqn2 : ∀ x ∈ scanAppend sl curr (processed ++ [curr]) rest,
              x = END_DEST ∨ x ∈ sl.map StateDict.name := by
            intro x hx
            rcases scanAppend_sound curr (processed ++ [curr]) sl rest x hx with h | h
            · exact hqn x (List.mem_cons_of_mem _ h)
            · obtain ⟨st, hst, rfl, _⟩ := h
              exact Or.inr (List.mem_map.2 ⟨st, hst, rfl⟩)
          have hcount : (curr :: rest).count END_DEST = rest.count END_DEST := by
            rw [List.count_cons]
            simp [hend, fun h => hend (Eq.symm h)]
          have hqc2 : (scanAppend sl curr (processed ++ [curr]) rest).count END_DEST
              ≤ 1 := by
            rw [scanAppend_count curr END_DEST (processed ++ [curr]) sl hnoend rest]
            rw [hcount] at hqc
            exact hqc
          have hpr2 : ∀ x ∈ processed ++ [curr], CanReachEnd sl x := by
            intro x hx
            rcases List.mem_append.1 hx with h | h
            · exact hpr x h
            · simp only [List.mem_singleton] at h
              subst h
              exact hreach_curr
          have hqr2 : ∀ x ∈ scanAppend sl curr (processed ++ [curr]) rest,
              x ≠ END_DEST → CanReachEnd sl x := by
            intro x hx hxne
            rcases scanAppend_sound curr (processed ++ [curr]) sl rest x hx with h | h
            · exact hqr x (List.mem_cons_of_mem _ h) hxne
            · obtain ⟨st, hst, rfl, hr⟩ := h
              exact CanReachEnd.toState st curr hst hr hreach_curr
          have hclE2 : END_DEST ∈ scanAppend sl curr (processed ++ [curr]) rest ∨
              ∀ st ∈ sl, RuleTo st END_DEST →
                st.name ∈ processed ++ [curr] ∨
                st.name ∈ scanAppend sl curr (processed ++ [curr]) rest := by
            rcases hclE with h | h
            · rcases List.mem_cons.1 h with hh | hh
              · exact absurd hh.symm hend
              · exact Or.inl
                  (scanAppend_mono curr (processed ++ [curr]) sl rest END_DEST hh)
            · right
              intro st hst hr
              rcases h st hst hr with hh | hh
              · exact Or.inl (List.mem_append_left _ hh)
              · rcases List.mem_cons.1 hh with hh' | hh'
                · exact Or.inl (List.mem_append_right _ (by simp [hh']))
                · exact Or.inr
                    (scanAppend_mono curr (processed ++ [curr]) sl rest st.name hh')
          have hclP2 : ∀ d ∈ processed ++ [curr], ∀ st ∈ sl, RuleTo st d →
              st.name ∈ processed ++ [curr] ∨
              st.name ∈ scanAppend sl curr (processed ++ [curr]) rest := by
            intro d hd st hst hr
            rcases List.mem_append.1 hd with h | h
            · rcases hclP d h st hst hr with hh | hh
              · exact Or.inl (List.mem_append_left _ hh)
              · rcases List.mem_cons.1 hh with hh' | hh'
                · exact Or.inl (List.mem_append_right _ (by simp [hh']))
                · exact Or.inr
                    (scanAppend_mono curr (processed ++ [curr]) sl rest st.name hh')
            · simp only [List.mem_singleton] at h
              subst d
              rcases scanAppend_complete curr (processed ++ [curr]) sl rest st hst hr
                with hh | hh
              · exact Or.inr hh
              · exact Or.inl hh
          have hfuel2 : remainingCount (sl.map StateDict.name) (processed ++ [curr])
              * (totalHandlerCount sl + 1) +
              (scanAppend sl curr (processed ++ [curr]) rest).length +
              (scanAppend sl curr (processed ++ [curr]) rest).count END_DEST
                * (totalHandlerCount sl + 1) ≤ fuel := by
            have h1 : remainingCount (sl.map StateDict.name) (processed ++ [curr]) <
                remainingCount (sl.map StateDict.name) processed :=
              remainingCount_lt _ _ _ hcn hmem
            have h2 : (scanAppend sl curr (processed ++ [curr]) rest).length ≤
                rest.length + totalHandlerCount sl :=
              scanAppend_length curr (processed ++ [curr]) sl rest
            have h3 : (scanAppend sl curr (processed ++ [curr]) rest).count END_DEST =
                rest.count END_DEST :=
              scanAppend_count curr END_DEST (processed ++ [curr]) sl hnoend rest
            have h4 : remainingCount (sl.map StateDict.name) (processed ++ [curr])
                * (totalHandlerCount sl + 1) + (totalHandlerCount sl + 1)
                ≤ remainingCount (sl.map StateDict.name) processed
                  * (totalHandlerCount sl + 1) := by
              calc remainingCount (sl.map StateDict.name) (processed ++ [curr])
                    * (totalHandlerCount sl + 1) + (totalHandlerCount sl + 1)
                  = (remainingCount (sl.map StateDict.name) (processed ++ [curr]) + 1)
                    * (totalHandlerCount sl + 1) := by ring
                _ ≤ _ := Nat.mul_le_mul_right _ (Nat.succ_le_of_lt h1)
            rw [h3]
            rw [hcount] at hfuel
            generalize hA : remainingCount (sl.map StateDict.name) (processed ++ [curr])
              * (totalHandlerCount sl + 1) = A at h4 ⊢
            generalize hB : remainingCount (sl.map StateDict.name) processed
              * (totalHandlerCount sl + 1) = B at h4 hfuel
            generalize hC : rest.count END_DEST * (totalHandlerCount sl + 1) = C at hfuel ⊢
            simp only [List.length_cons] at hfuel
            omega
          obtain ⟨P, hP, hPnd, hPprop, hPp, hPq, hPe, hPcl⟩ :=
            ih (processed ++ [curr]) (scanAppend sl curr (processed ++ [curr]) rest)
              hnd2 hpn2 hqn2 hqc2 hpr2 hqr2 hclE2 hclP2 hfuel2
          refine ⟨P, hP, hPnd, hPprop, ?_, ?_, hPe, hPcl⟩
          · intro x hx
            exact hPp x (List.mem_append_left _ hx)
          · intro x hx hxne
            rcases List.mem_cons.1 hx with rfl | hx'
            · exact hPp x (List.mem_append_right _ (List.mem_singleton.2 rfl))
            · exact hPq x (scanAppend_mono curr (processed ++ [curr]) sl rest x hx') hxne

/-- Any state name from which the terminal sentinel is reachable belongs to
every set containing the direct END-pointers and closed under the reverse
scan. -/
theorem canReachEnd_mem_P (sl : List StateDict) (P : List String)
    (hE : ∀ st ∈ sl, RuleTo st END_DEST → st.name ∈ P)
    (hcl : ∀ d ∈ P, ∀ st ∈ sl, RuleTo st d → st.name ∈ P) :
    ∀ x, CanReachEnd sl x → x ∈ P := by
  intro x hx
  induction hx with
  | toEnd st hst hr => exact hE st hst hr
  | toState st t hst hr _ iht => exact hcl t iht st hst hr

/-- C3 (amended): for every states list with pairwise-distinct state names,
none equal to the terminal sentinel, `_verify_no_dead_ends` reports no
violation when every declared state has a forward path of rule destinations
to the terminal sentinel, and otherwise raises a violation naming exactly
the declared states from which the terminal sentinel is not reachable. -/
theorem c3_dead_end_check (sl : List StateDict)
    (hnodup : (sl.map StateDict.name).Nodup)
    (hnoend : END_DEST ∉ sl.map StateDict.name) :
    ((∀ n ∈ sl.map StateDict.name, CanReachEnd sl n) →
      verify_no_dead_ends sl = .ok) ∧
    (∀ n0 ∈ sl.map StateDict.name, ¬CanReachEnd sl n0 →
      ∃ L, verify_no_dead_ends sl = .violation L ∧
        ∀ x, x ∈ L ↔ x ∈ sl.map StateDict.name ∧ ¬CanReachEnd sl x) := by
  have hqn : ∀ x ∈ [END_DEST], x = END_DEST ∨ x ∈ sl.map StateDict.name := by
    intro x hx
    simp only [List.mem_singleton] at hx
    exact Or.inl hx
  have hqc : ([END_DEST] : List String).count END_DEST ≤ 1 := by simp
  have hqr : ∀ x ∈ [END_DEST], x ≠ END_DEST → CanReachEnd sl x := by
    intro x hx hxne
    simp only [List.mem_singleton] at hx
    exact absurd hx hxne
  have hfuel : remainingCount (sl.map StateDict.name) [] * (totalHandlerCount sl + 1) +
      ([END_DEST] : List String).length +
      ([END_DEST] : List String).count END_DEST * (totalHandlerCount sl + 1)
        ≤ deadFuel sl := by
    rw [remainingCount_nil]
    have h1 : ([END_DEST] : List String).count END_DEST = 1 := by simp
    have h2 : ([END_DEST] : List String).length = 1 := rfl
    rw [h1, h2]
    unfold deadFuel
    exact Nat.le_of_eq (by ring)
  obtain ⟨P, hP, hPnd, hPprop, _hPp, _hPq, hPe, hPcl⟩ :=
    deadLoop_spec sl hnoend (deadFuel sl) [] [END_DEST]
      List.nodup_nil (fun x hx => absurd hx (List.not_mem_nil x)) hqn hqc
      (fun x hx => absurd hx (List.not_mem_nil x)) hqr
      (Or.inl (List.mem_singleton.2 rfl))
      (fun d hd => absurd hd (List.not_mem_nil d)) hfuel
  have hcomp : ∀ x, CanReachEnd sl x → x ∈ P := canReachEnd_mem_P sl P hPe hPcl
  have hPsub : P ⊆ sl.map StateDict.name := fun x hx => (hPprop x hx).1
  have hmaplen : (sl.map StateDict.name).length = sl.length := List.length_map _ _
  constructor
  · intro hall
    have hlen1 : P.length ≤ (sl.map StateDict.name).length :=
      (hPnd.subperm hPsub).length_le
    have hlen2 : (sl.map StateDict.name).length ≤ P.length :=
      (hnodup.subperm (fun n hn => hcomp n (hall n hn))).length_le
    simp only [verify_no_dead_ends, hP]
    rw [if_neg (by omega)]
  · intro n0 hn0 hnr
    have hn0P : n0 ∉ P := fun hmem => hnr ((hPprop n0 hmem).2)
    have hstrict : (P ++ [n0]).Nodup := by
      simp [List.nodup_append, hPnd, hn0P]
    have hsub2 : P ++ [n0] ⊆ sl.map StateDict.name := by
      intro x hx
      rcases List.mem_append.1 hx with h | h
      · exact hPsub h
      · simp only [List.mem_singleton] at h
        subst h
        exact hn0
    have hlt : P.length < (sl.map StateDict.name).length := by
      have := (hstrict.subperm hsub2).length_le
      simp only [List.length_append, List.length_cons, List.length_nil] at this
      omega
    refine ⟨(sl.map StateDict.name).dedup.filter (fun n => !(P.contains n)), ?_, ?_⟩
    · simp only [verify_no_dead_ends, hP]
      rw [if_pos (by omega)]
    · intro x
      rw [List.dedup_eq_self.2 hnodup]
      constructor
      · intro hx
        have := List.mem_filter.1 hx
        refine ⟨this.1, ?_⟩
        have hnotP : x ∉ P := (not_contains_true_iff P x).1 this.2
        exact fun hr => hnotP (hcomp x hr)
      · intro ⟨hxn, hxr⟩
        refine List.mem_filter.2 ⟨hxn, (not_contains_true_iff P x).2 ?_⟩
        exact fun hmem => hxr ((hPprop x hmem).2)

/-- C3 counterexample: listing the same terminal-pointing state twice gives
a states list in which every state has a path to the terminal sentinel, yet
the check raises a violation (naming no state) instead of reporting
success: the length comparison miscounts duplicated display names. -/
theorem c3_counterexample :
    verify_no_dead_ends [exC2Good, exC2Good] = .violation [] ∧
    (∀ n ∈ [exC2Good, exC2Good].map StateDict.name,
      CanReachEnd [exC2Good, exC2Good] n) := by
  constructor
  · rfl
  · intro n hn
    have h : n = "A" := by simpa [exC2Good] using hn
    subst h
    exact CanReachEnd.toEnd exC2Good (List.mem_cons_self _ _)
      (by simp [RuleTo, exC2Good, END_DEST])

theorem c3_dead_end_check_witness :
    verify_no_dead_ends [exC2Good] = .ok :=
  (c3_dead_end_check [exC2Good] (by decide) (by decide)).1
    (fun n hn => by
      have h : n = "A" := by simpa [exC2Good] using hn
      subst h
      exact CanReachEnd.toEnd exC2Good (List.mem_cons_self _ _)
        (by simp [RuleTo, exC2Good, END_DEST]))

/-! ### C9: rollback of failed YAML imports -/

theorem idString_inj {a b : Nat} (h : idString a = idString b) : a = b := by
  have hdata := congrArg String.data h
  simp only [idString] at hdata
  have hlen := congrArg List.length hdata
  simp only [List.length_replicate] at hlen
  omega

theorem idsFrom_length : ∀ (k n : Nat), (idsFrom n k).length = k := by
  intro k
  induction k with
  | zero => intro n; rfl
  | succ k ih => intro n; simp [idsFrom, ih]

theorem idsFrom_mem : ∀ (k n : Nat) (x : String), x ∈ idsFrom n k →
    ∃ j, n ≤ j ∧ j < n + k ∧ x = idString j := by
  intro k
  induction k with
  | zero => intro n x hx; exact absurd hx (List.not_mem_nil x)
  | succ k ih =>
    intro n x hx
    simp only [idsFrom] at hx
    rcases List.mem_cons.1 hx with rfl | hx2
    · exact ⟨n, Nat.le_refl n, by omega, rfl⟩
    · obtain ⟨j, h1, h2, h3⟩ := ih (n + 1) x hx2
      exact ⟨j, by omega, by omega, h3⟩

theorem idsFrom_nodup : ∀ (k n : Nat), (idsFrom n k).Nodup := by
  intro k
  induction k with
  | zero => intro n; exact List.nodup_nil
  | succ k ih =>
    intro n
    simp only [idsFrom]
    refine List.nodup_cons.2 ⟨?_, ih (n + 1)⟩
    intro hmem
    obtain ⟨j, h1, _h2, h3⟩ := idsFrom_mem k (n + 1) (idString n) hmem
    have hnj : n = j := idString_inj h3
    omega

theorem getNewIds_eq (names : List String) : ∀ s : Store,
    getNewIds s names =
      ({ s with next_id := s.next_id + names.length },
       idsFrom s.next_id names.length) := by
  induction names with
  | nil => intro s; rfl
  | cons n rest ih =>
    intro s
    simp only [getNewIds, getNewId, ih, List.length_cons, idsFrom, Prod.mk.injEq,
      Store.mk.injEq]
    refine ⟨⟨trivial, trivial, trivial, trivial, by omega⟩, trivial⟩

theorem upsert_mem (x i : String) (v : StateDict) :
    ∀ (ms : List StateModel), ∀ sm ∈ upsertStateModel ms x i v,
      sm ∈ ms ∨ (sm.exploration_id = x ∧ sm.id = i) := by
  intro ms
  induction ms with
  | nil =>
    intro sm hsm
    simp only [upsertStateModel] at hsm
    rcases List.mem_singleton.1 hsm with rfl
    exact Or.inr ⟨rfl, rfl⟩
  | cons m ms ih =>
    intro sm hsm
    simp only [upsertStateModel] at hsm
    split at hsm
    · rename_i hcond
      simp only [Bool.and_eq_true, beq_iff_eq] at hcond
      rcases List.mem_cons.1 hsm with rfl | hmem
      · exact Or.inr ⟨hcond.1, hcond.2⟩
      · exact Or.inl (List.mem_cons_of_mem _ hmem)
    · rcases List.mem_cons.1 hsm with rfl | hmem
      · exact Or.inl (List.mem_cons_self _ _)
      · rcases ih sm hmem with h | h
        · exact Or.inl (List.mem_cons_of_mem _ h)
        · exact Or.inr h

theorem upsert_find_self (x i : String) (v : StateDict) :
    ∀ (ms : List StateModel),
      ((upsertStateModel ms x i v).find?
        (fun sm => sm.exploration_id == x && sm.id == i)).isSome = true := by
  intro ms
  induction ms with
  | nil => simp [upsertStateModel, List.find?]
  | cons m ms ih =>
    simp only [upsertStateModel]
    split
    · rename_i hcond
      rw [List.find?_cons_of_pos]
      · rfl
      · exact hcond
    · rename_i hcond
      rw [List.find?_cons_of_neg]
      · exact ih
      · exact hcond

theorem upsert_find_other (x i x' i' : String) (v : StateDict) :
    ∀ (ms : List StateModel),
      (ms.find? (fun sm => sm.exploration_id == x' && sm.id == i')).isSome = true →
      ((upsertStateModel ms x i v).find?
        (fun sm => sm.exploration_id == x' && sm.id == i')).isSome = true := by
  intro ms
  induction ms with
  | nil => intro h; simp [List.find?] at h
  | cons m ms ih =>
    intro h
    simp only [upsertStateModel]
    split
    · by_cases hm : (m.exploration_id == x' && m.id == i') = true
      · rw [List.find?_cons_of_pos]
        · rfl
        · exact hm
      · rw [List.find?_cons_of_neg] at h
        · rw [List.find?_cons_of_neg]
          · exact h
          · exact hm
        · exact hm
    · by_cases hm : (m.exploration_id == x' && m.id == i') = true
      · rw [List.find?_cons_of_pos]
        · rfl
        · exact hm
      · rw [List.find?_cons_of_neg] at h
        · rw [List.find?_cons_of_neg]
          · exact ih h
          · exact hm
        · exact hm

theorem foldUpsert_mem (x : String) :
    ∀ (sts : List State) (ms : List StateModel),
      ∀ sm ∈ sts.foldl (fun ms st => upsertStateModel ms x st.id st.to_dict) ms,
        sm ∈ ms ∨ (sm.exploration_id = x ∧ sm.id ∈ sts.map State.id) := by
  intro sts
  induction sts with
  | nil => intro ms sm hsm; exact Or.inl hsm
  | cons st sts ih =>
    intro ms sm hsm
    rw [List.foldl_cons] at hsm
    rcases ih _ sm hsm with h | ⟨h1, h2⟩
    · rcases upsert_mem x st.id st.to_dict ms sm h with h2 | ⟨h1, h2⟩
      · exact Or.inl h2
      · exact Or.inr ⟨h1, by rw [List.map_cons, h2]; exact List.mem_cons_self _ _⟩
    · exact Or.inr ⟨h1, by rw [List.map_cons]; exact List.mem_cons_of_mem _ h2⟩

theorem foldUpsert_find_other (x x' i' : String) :
    ∀ (sts : List State) (ms : List StateModel),
      (ms.find? (fun sm => sm.exploration_id == x' && sm.id == i')).isSome = true →
      ((sts.foldl (fun ms st => upsertStateModel ms x st.id st.to_dict) ms).find?
        (fun sm => sm.exploration_id == x' && sm.id == i')).isSome = true := by
  intro sts
  induction sts with
  | nil => intro ms h; exact h
  | cons st sts ih =>
    intro ms h
    rw [List.foldl_cons]
    exact ih _ (upsert_find_other x st.id x' i' st.to_dict ms h)

theorem foldUpsert_find_self (x : String) :
    ∀ (sts : List State) (ms : List StateModel), ∀ st ∈ sts,
      ((sts.foldl (fun ms st => upsertStateModel ms x st.id st.to_dict) ms).find?
        (fun sm => sm.exploration_id == x && sm.id == st.id)).isSome = true := by
  intro sts
  induction sts with
  | nil => intro ms st h; exact absurd h (List.not_mem_nil st)
  | cons st0 sts ih =>
    intro ms st hst
    rw [List.foldl_cons]
    rcases List.mem_cons.1 hst with rfl | h
    · exact foldUpsert_find_other x x st.id sts _ (upsert_find_self x st.id st.to_dict ms)
    · exact ih _ st h

theorem find?_filter_ne_append (eid : String) (newE : Exploration)
    (hnew : (newE.id == eid) = true) :
    ∀ l : List Exploration,
      ((l.filter (fun x => x.id != eid)) ++ [newE]).find? (fun x => x.id == eid) =
        some newE := by
  intro l
  induction l with
  | nil =>
    simp only [List.filter_nil, List.nil_append]
    rw [List.find?_cons_of_pos]
    · exact hnew
  | cons a l ih =>
    rw [List.filter_cons]
    split
    · rename_i ha
      rw [List.cons_append, List.find?_cons_of_neg]
      · exact ih
      · simp only [bne_iff_ne, ne_eq] at ha
        simp [ha]
    · exact ih

theorem findExplorationModel_put (s : Store) (u : String) (v : Nat) (e : Exploration)
    (snap : Option VersionableDict) :
    findExplorationModel (explorationModelPut s u v e snap) e.id =
      some { e with version := v + 1 } := by
  show ((s.explorations.filter (fun (x : Exploration) => x.id != e.id)) ++
      [{ e with version := v + 1 }]).find? (fun (x : Exploration) => x.id == e.id) = _
  exact find?_filter_ne_append e.id { e with version := v + 1 } (by simp) s.explorations

theorem findExplorationModel_id {s : Store} {x : String} {e : Exploration}
    (h : findExplorationModel s x = some e) : e.id = x := by
  simp only [findExplorationModel] at h
  have := List.find?_some h
  exact beq_iff_eq.1 this

theorem save_states_error (env : Env) (u x : String) (sts : List State) (s s2 : Store)
    (e : String) (h : save_states env u x sts s = (s2, .error e)) : s2 = s := by
  simp only [save_states] at h
  split at h
  · injection h with h1 h2
    exact h1.symm
  · injection h with h1 h2
    exact Except.noConfusion h2

theorem save_states_ok (env : Env) (u x : String) (sts : List State) (s s2 : Store)
    (h : save_states env u x sts s = (s2, .ok ())) :
    s2 = { s with state_models :=
      (sts.foldl (fun ms st => upsertStateModel ms x st.id st.to_dict) s.state_models) } := by
  simp only [save_states] at h
  split at h
  · injection h with h1 h2
    exact Except.noConfusion h2
  · injection h with h1 h2
    exact h1.symm

theorem get_exploration_ok {s : Store} {x : String} {e : Exploration}
    (h : get_exploration_by_id s x = .ok e) : findExplorationModel s x = some e := by
  simp only [get_exploration_by_id] at h
  split at h
  · rename_i e2 heq
    injection h with h1
    rw [heq, h1]
  · exact Except.noConfusion h

theorem save_exploration_error (env : Env) (u : String) (ex : Exploration) (s s2 : Store)
    (e : String) (h : save_exploration env u ex s = (s2, .error e)) : s2 = s := by
  simp only [save_exploration] at h
  split at h
  · injection h with h1 h2
    exact h1.symm
  · split at h
    · injection h with h1 h2
      exact h1.symm
    · split at h
      · injection h with h1 h2
        exact h1.symm
      · split at h
        · injection h with h1 h2
          exact h1.symm
        · injection h with h1 h2
          exact Except.noConfusion h2

theorem save_exploration_ok (env : Env) (u : String) (ex : Exploration) (s s2 : Store)
    (h : save_exploration env u ex s = (s2, .ok ())) :
    s2.state_models = s.state_models ∧ s2.next_id = s.next_id ∧
    ∃ ex2, findExplorationModel s2 ex.id = some ex2 ∧ ex2.state_ids = ex.state_ids := by
  simp only [save_exploration] at h
  split at h
  · injection h with h1 h2
    exact Except.noConfusion h2
  · split at h
    · injection h with h1 h2
      exact Except.noConfusion h2
    · rename_i model hfind
      split at h
      · injection h with h1 h2
        exact Except.noConfusion h2
      · split at h
        · injection h with h1 h2
          exact Except.noConfusion h2
        · rename_i vdict hmatch
          injection h with h1 h2
          subst h1
          refine ⟨rfl, rfl, ?_⟩
          exact ⟨_, findExplorationModel_put s u model.version
            { ex with deleted := model.deleted } vdict, rfl⟩

theorem delete_state_model_force (s : Store) (x sid : String)
    (hfind : (findStateModel s x sid).isSome = true) :
    delete_state_model s x sid true =
      ({ s with state_models := (s.state_models.filter
          (fun sm => !(sm.exploration_id == x && sm.id == sid))) }, .ok ()) := by
  simp only [delete_state_model]
  split
  · rename_i heq
    rw [heq] at hfind
    simp at hfind
  · rfl

theorem rollbackInv_mono (s s2 : Store) (x : String) (hinv : RollbackInv s x)
    (he : s2.explorations = s.explorations) (hsm : s2.state_models = s.state_models)
    (hnid : s.next_id ≤ s2.next_id) : RollbackInv s2 x := by
  obtain ⟨ex, hf, hnd, hb, hp, ho⟩ := hinv
  refine ⟨ex, ?_, hnd, ?_, ?_, ?_⟩
  · simp only [findExplorationModel] at hf ⊢
    rw [he]
    exact hf
  · intro sid hsid
    obtain ⟨k, hk, hks⟩ := hb sid hsid
    exact ⟨k, by omega, hks⟩
  · intro sid hsid
    have h0 := hp sid hsid
    simp only [findStateModel] at h0 ⊢
    rw [hsm]
    exact h0
  · intro sm hsm2
    rw [hsm] at hsm2
    exact ho sm hsm2

theorem deleteStateModels_force (x : String) :
    ∀ (sids : List String) (s : Store), sids.Nodup →
      (∀ sid ∈ sids, (findStateModel s x sid).isSome = true) →
      ∃ s2, deleteStateModels s x sids true = (s2, .ok ()) ∧
        s2.explorations = s.explorations ∧
        s2.snapshot_models = s.snapshot_models ∧
        s2.snapshot_content_models = s.snapshot_content_models ∧
        s2.next_id = s.next_id ∧
        (∀ sm ∈ s2.state_models, sm ∈ s.state_models ∧
          ¬(sm.exploration_id = x ∧ sm.id ∈ sids)) := by
  intro sids
  induction sids with
  | nil =>
    intro s _ _
    exact ⟨s, rfl, rfl, rfl, rfl, rfl,
      fun sm hsm => ⟨hsm, fun hc => List.not_mem_nil _ hc.2⟩⟩
  | cons sid rest ih =>
    intro s hnd hfind
    have hfind0 : (findStateModel s x sid).isSome = true :=
      hfind sid (List.mem_cons_self _ _)
    have hstep := delete_state_model_force s x sid hfind0
    have hfind1 : ∀ sid2 ∈ rest,
        (findStateModel { s with state_models := (s.state_models.filter
          (fun sm => !(sm.exploration_id == x && sm.id == sid))) } x sid2).isSome
          = true := by
      intro sid2 hsid2
      have h0 := hfind sid2 (List.mem_cons_of_mem _ hsid2)
      simp only [findStateModel, List.find?_isSome] at h0 ⊢
      obtain ⟨sm, hsm, hp⟩ := h0
      refine ⟨sm, List.mem_filter.2 ⟨hsm, ?_⟩, hp⟩
      have hne : sid2 ≠ sid := fun hc => (List.nodup_cons.1 hnd).1 (hc ▸ hsid2)
      simp only [Bool.and_eq_true, beq_iff_eq] at hp
      simp [hp.2, hne]
    obtain ⟨s2, hrun, he, hsn, hsc, hnid, hmem⟩ :=
      ih { s with state_models := (s.state_models.filter
        (fun sm => !(sm.exploration_id == x && sm.id == sid))) }
        (List.nodup_cons.1 hnd).2 hfind1
    refine ⟨s2, ?_, he, hsn, hsc, hnid, ?_⟩
    · show (match delete_state_model s x sid true with
            | (s3, .error e) => (s3, .error e)
            | (s3, .ok _) => deleteStateModels s3 x rest true) = (s2, .ok ())
      rw [hstep]
      exact hrun
    · intro sm hsm
      obtain ⟨hsm1, hnot⟩ := hmem sm hsm
      have hsm2 := List.mem_filter.1 hsm1
      refine ⟨hsm2.1, ?_⟩
      rintro ⟨hx, hmem2⟩
      rcases List.mem_cons.1 hmem2 with heq | hmem3
      · have h2 := hsm2.2
        simp [hx, heq] at h2
      · exact hnot ⟨hx, hmem3⟩

theorem delete_exploration_cleans (u x : String) (s : Store)
    (hinv : RollbackInv s x) :
    ∃ s2, delete_exploration u x true s = (s2, .ok ()) ∧ CleanFor s2 x := by
  obtain ⟨ex, hfind, hnd, _hbound, hpresent, horphan⟩ := hinv
  have hget : get_exploration_by_id s x = .ok ex := by
    simp only [get_exploration_by_id, hfind]
  obtain ⟨s2, hrun, he, hsn, hsc, _hnid, hmem⟩ :=
    deleteStateModels_force x ex.state_ids s hnd hpresent
  have hfind2 : findExplorationModel s2 x = some ex := by
    simp only [findExplorationModel] at hfind ⊢
    rw [he]
    exact hfind
  refine ⟨{ s2 with
      explorations := (s2.explorations.filter (fun e => e.id != x)),
      snapshot_models := (s2.snapshot_models.filter (fun sn => sn.exploration_id != x)),
      snapshot_content_models := (s2.snapshot_content_models.filter
        (fun sc => sc.exploration_id != x)) }, ?_, ?_, ?_, ?_, ?_⟩
  · simp only [delete_exploration, hget, hrun, hfind2]
    rfl
  · have hnone : (s2.explorations.filter (fun (e : Exploration) => e.id != x)).find?
        (fun (e : Exploration) => e.id == x) = none := by
      rw [List.find?_eq_none]
      intro a ha
      have h2 := (List.mem_filter.1 ha).2
      simp only [bne_iff_ne, ne_eq] at h2
      simp [h2]
    simp only [findExplorationModel, hnone, Option.isNone]
  · intro sm hsm
    obtain ⟨hsm1, hnot⟩ := hmem sm hsm
    intro hx
    exact hnot ⟨hx, horphan sm hsm1 hx⟩
  · intro sn hsn2
    have h2 := (List.mem_filter.1 hsn2).2
    simpa [bne_iff_ne] using h2
  · intro sc hsc2
    have h2 := (List.mem_filter.1 hsc2).2
    simpa [bne_iff_ne] using h2

theorem create_new_inv (env : Env) (u title cat : String) (eidOpt : Option String)
    (isn : String) (store : Store) (s : Store) (eid : String)
    (hclean : CleanFor store eid)
    (h : create_new env u title cat eidOpt isn store = (s, .ok eid)) :
    RollbackInv s eid := by
  obtain ⟨_hc1, hc2, _hc3, _hc4⟩ := hclean
  cases eidOpt with
  | some e0 =>
    simp only [create_new, getNewId] at h
    split at h
    · injection h with h1 h2
      exact Except.noConfusion h2
    · rename_i s3 u3 heq
      cases u3
      injection h with h1 h2
      injection h2 with h3
      subst h3
      subst h1
      have hs3 := save_states_ok env u e0 _ _ s3 heq
      subst hs3
      refine ⟨_, findExplorationModel_put _ u 0 _ none, ?_, ?_, ?_, ?_⟩
      · simp
      · intro sid hsid
        have hsid2 : sid = idString store.next_id := by simpa using hsid
        exact ⟨store.next_id, Nat.lt_succ_self store.next_id, hsid2⟩
      · intro sid hsid
        have hsid2 : sid = idString store.next_id := by simpa using hsid
        subst hsid2
        exact upsert_find_self e0 (idString store.next_id)
          (mkDefaultState (idString store.next_id) isn).to_dict store.state_models
      · intro sm hsm hx
        have hsm2 : sm ∈ upsertStateModel store.state_models e0
            (idString store.next_id)
            (mkDefaultState (idString store.next_id) isn).to_dict := hsm
        rcases upsert_mem e0 (idString store.next_id)
            (mkDefaultState (idString store.next_id) isn).to_dict
            store.state_models sm hsm2 with h2 | h2
        · exact absurd hx (hc2 sm h2)
        · simp [h2.2]
  | none =>
    simp only [create_new, getNewId] at h
    split at h
    · injection h with h1 h2
      exact Except.noConfusion h2
    · rename_i s3 u3 heq
      cases u3
      injection h with h1 h2
      injection h2 with h3
      subst h3
      subst h1
      have hs3 := save_states_ok env u (idString store.next_id) _ _ s3 heq
      subst hs3
      refine ⟨_, findExplorationModel_put _ u 0 _ none, ?_, ?_, ?_, ?_⟩
      · simp
      · intro sid hsid
        have hsid2 : sid = idString (store.next_id + 1) := by simpa using hsid
        exact ⟨store.next_id + 1, Nat.lt_succ_self (store.next_id + 1), hsid2⟩
      · intro sid hsid
        have hsid2 : sid = idString (store.next_id + 1) := by simpa using hsid
        subst hsid2
        exact upsert_find_self (idString store.next_id) (idString (store.next_id + 1))
          (mkDefaultState (idString (store.next_id + 1)) isn).to_dict store.state_models
      · intro sm hsm hx
        have hsm2 : sm ∈ upsertStateModel store.state_models (idString store.next_id)
            (idString (store.next_id + 1))
            (mkDefaultState (idString (store.next_id + 1)) isn).to_dict := hsm
        rcases upsert_mem (idString store.next_id) (idString (store.next_id + 1))
            (mkDefaultState (idString (store.next_id + 1)) isn).to_dict
            store.state_models sm hsm2 with h2 | h2
        · exact absurd hx (hc2 sm h2)
        · simp [h2.2]

theorem add_states_error (env : Env) (u x : String) (names : List String) (s s2 : Store)
    (e : String) (h : add_states env u x names s = (s2, .error e)) :
    s2.explorations = s.explorations ∧ s2.state_models = s.state_models ∧
    s.next_id ≤ s2.next_id := by
  simp only [add_states, getNewIds_eq] at h
  split at h
  · injection h with h1 h2
    subst h1
    exact ⟨rfl, rfl, Nat.le_refl _⟩
  · split at h
    · injection h with h1 h2
      subst h1
      exact ⟨rfl, rfl, Nat.le_refl _⟩
    · split at h
      · injection h with h1 h2
        subst h1
        exact ⟨rfl, rfl, Nat.le_add_right _ _⟩
      · injection h with h1 h2
        exact Except.noConfusion h2

theorem zip_mk_ids : ∀ (names ids : List String), names.length = ids.length →
    ((names.zip ids).map (fun p => mkDefaultState p.2 p.1)).map State.id = ids := by
  intro names
  induction names with
  | nil =>
    intro ids h
    cases ids with
    | nil => rfl
    | cons i is => simp at h
  | cons n ns ih =>
    intro ids h
    cases ids with
    | nil => simp at h
    | cons i is =>
      simp only [List.zip_cons_cons, List.map_cons]
      rw [ih is (by simpa using h)]
      rfl

theorem dictGet?_mem_values : ∀ (d : List (String × String)) (k v : String),
    dictGet? d k = some v → v ∈ d.map Prod.snd := by
  intro d k v h
  simp only [dictGet?] at h
  cases hf : d.find? (fun p => p.1 == k) with
  | none => rw [hf] at h; exact Option.noConfusion h
  | some p =>
    rw [hf, Option.map_some'] at h
    injection h with h1
    exact h1 ▸ List.mem_map.2 ⟨p, List.mem_of_find?_eq_some hf, rfl⟩

theorem dictInsert_values_subset : ∀ (d : List (String × String)) (k v x : String),
    x ∈ (dictInsert d k v).map Prod.snd → x ∈ d.map Prod.snd ∨ x = v := by
  intro d
  induction d with
  | nil =>
    intro k v x hx
    simp [dictInsert] at hx
    exact Or.inr hx
  | cons p d ih =>
    intro k v x hx
    simp only [dictInsert] at hx
    split at hx
    · simp only [List.map_cons] at hx
      rcases List.mem_cons.1 hx with rfl | hmem
      · exact Or.inr rfl
      · exact Or.inl (by rw [List.map_cons]; exact List.mem_cons_of_mem _ hmem)
    · simp only [List.map_cons] at hx
      rcases List.mem_cons.1 hx with rfl | hmem
      · exact Or.inl (by rw [List.map_cons]; exact List.mem_cons_self _ _)
      · rcases ih k v x hmem with h2 | h2
        · exact Or.inl (by rw [List.map_cons]; exact List.mem_cons_of_mem _ h2)
        · exact Or.inr h2

theorem foldInsert_values : ∀ (ps d : List (String × String)) (x : String),
    x ∈ ((ps.foldl (fun d p => dictInsert d p.1 p.2) d).map Prod.snd) →
    x ∈ d.map Prod.snd ∨ x ∈ ps.map Prod.snd := by
  intro ps
  induction ps with
  | nil => intro d x hx; exact Or.inl hx
  | cons p ps ih =>
    intro d x hx
    rw [List.foldl_cons] at hx
    rcases ih _ x hx with h2 | h2
    · rcases dictInsert_values_subset d p.1 p.2 x h2 with h3 | h3
      · exact Or.inl h3
      · exact Or.inr (by rw [List.map_cons, h3]; exact List.mem_cons_self _ _)
    · exact Or.inr (by rw [List.map_cons]; exact List.mem_cons_of_mem _ h2)

theorem mapME_ok_mem {α β ε : Type} (f : α → Except ε β) :
    ∀ (l : List α) (l2 : List β), mapME f l = .ok l2 →
      ∀ y ∈ l2, ∃ a ∈ l, f a = .ok y := by
  intro l
  induction l with
  | nil =>
    intro l2 h y hy
    simp only [mapME] at h
    injection h with h1
    subst h1
    exact absurd hy (List.not_mem_nil y)
  | cons a as ih =>
    intro l2 h y hy
    simp only [mapME] at h
    split at h
    · exact Except.noConfusion h
    · rename_i b hb
      split at h
      · exact Except.noConfusion h
      · rename_i bs hbs
        injection h with h1
        subst h1
        rcases List.mem_cons.1 hy with rfl | hy2
        · exact ⟨a, List.mem_cons_self _ _, hb⟩
        · obtain ⟨a2, ha2, hfa2⟩ := ih bs hbs y hy2
          exact ⟨a2, List.mem_cons_of_mem _ ha2, hfa2⟩

theorem buildOneState_id (env : Env) (s : Store) (x : String)
    (dict ps : List (String × String)) (sdict : StateDict) (st : State)
    (h : buildOneState env s x dict ps sdict = .ok st) :
    ∃ sid, dictGet? dict sdict.name = some sid ∧ st.id = sid := by
  simp only [buildOneState] at h
  split at h
  · exact Except.noConfusion h
  · rename_i sid hsid
    refine ⟨sid, hsid, ?_⟩
    split at h
    · exact Except.noConfusion h
    · rename_i state hstate
      split at h
      · exact Except.noConfusion h
      · split at h
        · exact Except.noConfusion h
        · rename_i whs hwhs
          injection h with h1
          subst h1
          simp only [get_state_by_id] at hstate
          split at hstate
          · rename_i sm hsm
            injection hstate with h2
            rw [← h2]
            rfl
          · exact Except.noConfusion hstate

theorem add_states_ok (env : Env) (u x : String) (names : List String) (s s2 : Store)
    (new_ids : List String)
    (h : add_states env u x names s = (s2, .ok new_ids))
    (hinv : RollbackInv s x) :
    RollbackInv s2 x ∧ s2.next_id = s.next_id + names.length ∧
    ∃ ex ex2, findExplorationModel s x = some ex ∧
      findExplorationModel s2 x = some ex2 ∧
      ex2.state_ids = ex.state_ids ++ new_ids := by
  obtain ⟨ex, hfx, hnd, hb, hp, ho⟩ := hinv
  have hexid : ex.id = x := findExplorationModel_id hfx
  simp only [add_states, addStatesTransaction, getNewIds_eq] at h
  split at h
  · injection h with h1 h2
    exact Except.noConfusion h2
  · rename_i ex0 hge0
    split at h
    · injection h with h1 h2
      exact Except.noConfusion h2
    · split at h
      · injection h with h1 h2
        exact Except.noConfusion h2
      · rename_i t1 u1 heqss
        cases u1
        injection h with h1 h2
        injection h2 with h3
        subst h1
        subst h3
        split at heqss
        · injection heqss with h4 h5
          exact Except.noConfusion h5
        · rename_i s5 u5 heqss2
          cases u5
          split at heqss
          · injection heqss with h4 h5
            exact Except.noConfusion h5
          · rename_i ex2 heqge
            have hs5 := save_states_ok env u x _ _ s5 heqss2
            subst hs5
            have hge2 : findExplorationModel s x = some ex2 := get_exploration_ok heqge
            rw [hfx] at hge2
            injection hge2 with hge3
            subst hge3
            obtain ⟨hsm4, hnid4, ex3, hfind3, hsids3⟩ :=
              save_exploration_ok env u _ _ t1 heqss
            have hfind3a : findExplorationModel t1 ex.id = some ex3 := hfind3
            rw [hexid] at hfind3a
            have hnid4a : t1.next_id = s.next_id + names.length := hnid4
            have hsids3a : ex3.state_ids =
                ex.state_ids ++ idsFrom s.next_id names.length := hsids3
            have hlen : names.length = (idsFrom s.next_id names.length).length :=
              (idsFrom_length names.length s.next_id).symm
            have hmapids :
                (((names.zip (idsFrom s.next_id names.length)).map
                  (fun p => mkDefaultState p.2 p.1)).map State.id) =
                idsFrom s.next_id names.length :=
              zip_mk_ids names (idsFrom s.next_id names.length) hlen
            refine ⟨⟨ex3, hfind3a, ?_, ?_, ?_, ?_⟩, hnid4a, ex, ex3, hfx, hfind3a, hsids3a⟩
            · rw [hsids3a]
              refine List.nodup_append.2 ⟨hnd, idsFrom_nodup _ _, ?_⟩
              intro a ha1 ha2
              obtain ⟨k, hklt, hkeq⟩ := hb a ha1
              obtain ⟨j, hj1, _hj2, hjeq⟩ :=
                idsFrom_mem names.length s.next_id a ha2
              subst hkeq
              have hkj : k = j := idString_inj hjeq
              omega
            · intro sid hsid
              rw [hsids3a] at hsid
              rcases List.mem_append.1 hsid with h4 | h4
              · obtain ⟨k, hklt, hkeq⟩ := hb sid h4
                exact ⟨k, by omega, hkeq⟩
              · obtain ⟨j, hj1, hj2, hjeq⟩ :=
                  idsFrom_mem names.length s.next_id sid h4
                exact ⟨j, by omega, hjeq⟩
            · intro sid hsid
              rw [hsids3a] at hsid
              simp only [findStateModel]
              rw [hsm4]
              rcases List.mem_append.1 hsid with h4 | h4
              · have h5 := hp sid h4
                simp only [findStateModel] at h5
                exact foldUpsert_find_other x x sid _ s.state_models h5
              · rw [← hmapids] at h4
                obtain ⟨st, hst, hstid⟩ := List.mem_map.1 h4
                have h6 := foldUpsert_find_self x
                  ((names.zip (idsFrom s.next_id names.length)).map
                    (fun p => mkDefaultState p.2 p.1)) s.state_models st hst
                rw [hstid] at h6
                exact h6
            · intro sm hsm hxe
              rw [hsm4] at hsm
              have hsm3 : sm ∈
                  (((names.zip (idsFrom s.next_id names.length)).map
                    (fun p => mkDefaultState p.2 p.1)).foldl
                    (fun ms st => upsertStateModel ms x st.id st.to_dict)
                    s.state_models) := hsm
              rcases foldUpsert_mem x _ s.state_models sm hsm3 with h4 | ⟨_, h5⟩
              · rw [hsids3a]
                exact List.mem_append_left _ (ho sm h4 hxe)
              · rw [hsids3a]
                rw [hmapids] at h5
                exact List.mem_append_right _ h5

theorem createFromYamlRest_inv (env : Env) (d : ExplorationDict) (u eid isn : String)
    (dict0 : List (String × String)) (s : Store)
    (hinv : RollbackInv s eid)
    (hdict0 : ∀ v ∈ dict0.map Prod.snd, ∀ ex0, findExplorationModel s eid = some ex0 →
      v ∈ ex0.state_ids) :
    ∀ s1 e, createFromYamlRest env d u eid isn dict0 s = (s1, .error e) →
      RollbackInv s1 eid := by
  intro s1 e h
  simp only [createFromYamlRest] at h
  split at h
  · rename_i sA eA heqA
    injection h with h1 h2
    subst h1
    obtain ⟨he2, hsm2, hnid2⟩ := add_states_error env u eid _ s sA eA heqA
    exact rollbackInv_mono s sA eid hinv he2 hsm2 hnid2
  · rename_i sA other_ids heqA
    obtain ⟨hinvA, hnidA, exS, exA2, hfxS, hfxA2, hsidsA⟩ :=
      add_states_ok env u eid _ s sA other_ids heqA hinv
    split at h
    · injection h with h1 h2
      subst h1
      exact hinvA
    · rename_i all_states hmapeq
      have hall_ids : ∀ st ∈ all_states, st.id ∈ exA2.state_ids := by
        intro st hst
        obtain ⟨sdict, hsdict, hbuild⟩ := mapME_ok_mem _ d.states all_states hmapeq st hst
        obtain ⟨sid, hsidget, hstid⟩ := buildOneState_id env sA eid _ _ sdict st hbuild
        rw [hstid]
        have hsidmem := dictGet?_mem_values _ sdict.name sid hsidget
        rcases foldInsert_values _ dict0 sid hsidmem with h4 | h4
        · have h5 := hdict0 sid h4 exS hfxS
          rw [hsidsA]
          exact List.mem_append_left _ h5
        · obtain ⟨p, hp, hpe⟩ := List.mem_map.1 h4
          rw [hsidsA]
          refine List.mem_append_right _ ?_
          obtain ⟨pa, pb⟩ := p
          have h6 := (List.of_mem_zip hp).2
          rw [← hpe]
          exact h6
      obtain ⟨exI, hfxI, hndI, hbI, hpI, hoI⟩ := hinvA
      have hIeq : exI = exA2 := by
        rw [hfxA2] at hfxI
        exact (Option.some.inj hfxI).symm
      subst hIeq
      split at h
      · rename_i sB eB heqsserr
        injection h with h1 h2
        subst h1
        have hBA := save_states_error env u eid all_states sA sB eB heqsserr
        subst hBA
        exact ⟨exI, hfxA2, hndI, hbI, hpI, hoI⟩
      · rename_i sB uB heqss
        cases uB
        have hsB := save_states_ok env u eid all_states sA sB heqss
        subst hsB
        have hinvB : RollbackInv { sA with state_models :=
            (all_states.foldl (fun ms st => upsertStateModel ms eid st.id st.to_dict)
              sA.state_models) } eid := by
          refine ⟨exI, hfxA2, hndI, hbI, ?_, ?_⟩
        -- presence and orphans through the upsert fold
          · intro sid hsid
            have h5 := hpI sid hsid
            simp only [findStateModel] at h5 ⊢
            exact foldUpsert_find_other eid eid sid all_states sA.state_models h5
          · intro sm hsm hxe
            have hsm3 : sm ∈ (all_states.foldl
                (fun ms st => upsertStateModel ms eid st.id st.to_dict)
                sA.state_models) := hsm
            rcases foldUpsert_mem eid all_states sA.state_models sm hsm3 with h4 | ⟨_, h5⟩
            · exact hoI sm h4 hxe
            · obtain ⟨st, hst, hstid⟩ := List.mem_map.1 h5
              exact hstid ▸ hall_ids st hst
        split at h
        · injection h with h1 h2
          subst h1
          exact hinvB
        · rename_i ex4 heqge
          have h1 := save_exploration_error env u _ _ s1 e h
          subst h1
          exact hinvB

/-- C9: when any step of `create_from_yaml` after the initial exploration
creation fails, the partially created exploration is force-deleted — the
final store holds no exploration record, no state record and no snapshot
records for the created id, so in particular no orphaned state records
remain — and the original exception propagates to the caller.  The store is
presupposed clean for the id about to be created. -/
theorem c9_rollback (env : Env) (d : ExplorationDict)
    (user title category : String) (eidOpt : Option String) (store : Store)
    (s0 : StateDict) (s : Store) (eid : String) (ex : Exploration) (sid0 : String)
    (s1 : Store) (e : String)
    (hschema : d.schema_version = CURRENT_EXPLORATION_SCHEMA_VERSION)
    (hhead : d.states.head? = some s0)
    (hclean : CleanFor store eid)
    (hcreate : create_new env user title category eidOpt s0.name store = (s, .ok eid))
    (hget : get_exploration_by_id s eid = .ok ex)
    (hsid : ex.state_ids.head? = some sid0)
    (hrest : createFromYamlRest env d user eid s0.name [(s0.name, sid0)] s =
      (s1, .error e)) :
    ∃ s2, create_from_yaml env d user title category eidOpt store = (s2, .error e) ∧
      CleanFor s2 eid := by
  have hinv : RollbackInv s eid :=
    create_new_inv env user title category eidOpt s0.name store s eid hclean hcreate
  have hfx : findExplorationModel s eid = some ex := get_exploration_ok hget
  have hdict0 : ∀ v ∈ ([(s0.name, sid0)].map Prod.snd), ∀ ex0,
      findExplorationModel s eid = some ex0 → v ∈ ex0.state_ids := by
    intro v hv ex0 hex0
    have hex : ex0 = ex := by
      rw [hfx] at hex0
      exact (Option.some.inj hex0).symm
    subst hex
    have hveq : v = sid0 := by simpa using hv
    subst hveq
    exact List.mem_of_mem_head? hsid
  have hinv1 : RollbackInv s1 eid :=
    createFromYamlRest_inv env d user eid s0.name _ s hinv hdict0 s1 e hrest
  obtain ⟨s2, hdel, hcl⟩ := delete_exploration_cleans user eid s1 hinv1
  refine ⟨s2, ?_, hcl⟩
  have hne : ¬(d.schema_version ≠ CURRENT_EXPLORATION_SCHEMA_VERSION) :=
    fun hc => hc hschema
  simp only [create_from_yaml, if_neg hne, hhead, hcreate, hget, hsid, hrest, hdel]

theorem c9_rollback_witness :
    ∃ s2, create_from_yaml exEnv exC9Dict "u" "T" "C" none exC9Store =
        (s2, .error "KeyError: Missing") ∧ CleanFor s2 (idString 0) :=
  c9_rollback exEnv exC9Dict "u" "T" "C" none exC9Store exC9State
    (create_new exEnv "u" "T" "C" none exC9State.name exC9Store).1 (idString 0)
    exC9Exploration (idString 1)
    (createFromYamlRest exEnv exC9Dict "u" (idString 0) exC9State.name
      [(exC9State.name, idString 1)]
      (create_new exEnv "u" "T" "C" none exC9State.name exC9Store).1).1
    "KeyError: Missing"
    rfl rfl
    ⟨rfl, fun sm hsm => absurd hsm (List.not_mem_nil sm),
      fun sn hsn => absurd hsn (List.not_mem_nil sn),
      fun sc hsc => absurd hsc (List.not_mem_nil sc)⟩
    rfl rfl rfl rfl
